import Mathlib

/-!
# AffAction: result records and the planning entry points of the Python module

Embedding of `src/src/ActionResult.cpp` (the result record and its `success` test) and of
the lambdas of `src/python/module.cpp` (`plan`, `executeBlocking`, `plan_fb`,
`plan_fb_rich`, `query_fb_nonblock`, `predictActionSequence`, `planActionSequence`,
`_planActionSequenceThreaded`, `isReachable`). A `std::string` is a Lean `String` (one `Char` per character), a
`std::vector` a `List`, a `size_t` counter a `Nat`. The prediction tree (PredictionTree.h)
enters as a parameter: the functions below read it only through `findSolutionPath`,
`getLeafNodes` and the root node.
-/

namespace aff

/-- The result record: the five string members of `aff::ActionResult`. -/
structure ActionResult where
  error : String
  actionCommand : String
  reason : String
  suggestion : String
  developer : String
deriving DecidableEq, Repr

/-- The C string seen through `std::string::c_str()`: the characters up to the first NUL. -/
def c_str (s : String) : List Char :=
  s.data.takeWhile (fun c => c != Char.ofNat 0)

/-- The C library routine: compares at most `n` characters of two NUL-terminated strings
and returns 0 when they agree, else the difference of the first differing characters. The
end of a list is the terminating NUL. -/
def strncmp : List Char → List Char → Nat → Int
  | _, _, 0 => 0
  | [], [], _ + 1 => 0
  | [], b :: _, _ + 1 => 0 - (b.toNat : Int)
  | a :: _, [], _ + 1 => (a.toNat : Int)
  | a :: as, b :: bs, n + 1 =>
    if a = b then
      (if a = Char.ofNat 0 then 0 else strncmp as bs n)
    else (a.toNat : Int) - (b.toNat : Int)

/-- The macro `STRNEQ(a, b, n)` of Rcs_macros.h: `strncmp(a, b, n) == 0`. -/
def STRNEQ (a b : List Char) (n : Nat) : Bool :=
  strncmp a b n == 0

/-- The method `ActionResult::success`: `STRNEQ(error.c_str(), "SUCCESS", 7)`. -/
def ActionResult.success (r : ActionResult) : Bool :=
  STRNEQ (c_str r.error) (c_str "SUCCESS") 7


/-- Node of the prediction tree as plan_fb_rich reads it: the members `level`, `success`,
`fatalError`, `feedbackMsg` and the value of the accessor `actionCommand()`. -/
structure PredictionTreeNode where
  level : Int
  success : Bool
  fatalError : Bool
  feedbackMsg : ActionResult
  actionCommand : String
deriving DecidableEq, Repr

/-- The prediction tree as plan_fb_rich queries it. `findSolutionPath idx` stands for the call
`tree->findSolutionPath(idx, false)` and `getLeafNodes` for the vector filled by
`tree->getLeafNodes(leafs, false)`; both are taken as given. -/
structure PredictionTree where
  root : PredictionTreeNode
  findSolutionPath : Nat → List PredictionTreeNode
  getLeafNodes : List PredictionTreeNode

/-- One element of the vector returned by plan_fb_rich:
(grounded commands, reason, suggestion). -/
abbrev SearchResult := List String × String × String

/-- What one call of plan_fb_rich produces: the returned vector, the payload published with
the "ActionSequence" event (if any) and the batch published with the "ActionResult" event
(if any). -/
structure PlanFbRichResult where
  returned : List SearchResult
  actionSequence : Option String
  actionResult : Option (List ActionResult)
deriving DecidableEq, Repr

/-- Condition of the first early return of plan_fb_rich:
`slnPath.empty() || !tree->root->feedbackMsg.error.empty()`. -/
def rootFailure (tree : PredictionTree) : Bool :=
  (tree.findSolutionPath 0).isEmpty || !(decide (tree.root.feedbackMsg.error = ""))

/-- Condition of the success branch of plan_fb_rich:
`slnPath.back()->success && slnPath.size() == seq.size()`, evaluated on solution path 0. -/
def fullSuccess (tree : PredictionTree) (seq : List String) : Bool :=
  match (tree.findSolutionPath 0).getLast? with
  | none => false
  | some back => back.success && (tree.findSolutionPath 0).length == seq.length

/-- The accumulator of the loop over the leaves: `deepest_level` starts at 0 and takes the
maximum with every leaf level. -/
def deepestLevel (leafs : List PredictionTreeNode) : Int :=
  leafs.foldl (fun deepest_level leaf => max deepest_level leaf.level) 0

/-- The failure-enumeration loop of plan_fb_rich. The first argument bounds the number of
iterations; the loop ends when `slnPath` is empty. Each iteration either skips the path
(level of the last node below `deepest_level`) or appends the feedback record of the last node to
`actionResults` and the triple to `searchResults`. -/
def failureLoop (tree : PredictionTree) (deepest_level : Int) :
    Nat → Nat → List PredictionTreeNode → List ActionResult → List SearchResult →
      Option (List ActionResult × List SearchResult)
  | fuel, slnIdx, slnPath, actionResults, searchResults =>
    match slnPath.getLast? with
    | none => some (actionResults, searchResults)
    | some back =>
      match fuel with
      | 0 => none
      | fuel + 1 =>
        if back.level < deepest_level then
          failureLoop tree deepest_level fuel (slnIdx + 1) (tree.findSolutionPath (slnIdx + 1))
            actionResults searchResults
        else
          let predictedSeq := slnPath.map (fun node => node.actionCommand)
          let errMsg := back.feedbackMsg
          failureLoop tree deepest_level fuel (slnIdx + 1) (tree.findSolutionPath (slnIdx + 1))
            (actionResults ++ [errMsg])
            (searchResults ++ [(predictedSeq, errMsg.reason, errMsg.suggestion)])

/-- The body of plan_fb_rich after the tree has been planned and checked to be non-null.
`seq` is the split action sequence, `String_concatenate` the library routine that joins the
grounded commands; `fuel` bounds the iterations of the failure loop (`none` when it is used
up). The wait for the execution of a published sequence is not part of the model. -/
def plan_fb_rich (String_concatenate : List String → String → String) (fuel : Nat)
    (tree : PredictionTree) (seq : List String) : Option PlanFbRichResult :=
  let slnPath := tree.findSolutionPath 0
  if rootFailure tree then
    some ⟨[([], tree.root.feedbackMsg.reason, tree.root.feedbackMsg.suggestion)], none, none⟩
  else if fullSuccess tree seq then
    let predictedSeq := slnPath.map (fun node => node.actionCommand)
    let detailedActionCommand := String_concatenate predictedSeq ";"
    some ⟨[], some detailedActionCommand, none⟩
  else
    let deepest_level := deepestLevel tree.getLeafNodes
    match failureLoop tree deepest_level fuel 0 slnPath [] [] with
    | none => none
    | some (actionResults, searchResults) => some ⟨searchResults, none, some actionResults⟩

/-- The line built from one record in the message loops:
`fb.reason + " Suggestion: " + fb.suggestion + "\n"`. -/
def fbLine (fb : ActionResult) : String :=
  fb.reason ++ " Suggestion: " ++ fb.suggestion ++ "\n"

/-- The message loop of plan_fb over the remaining records, with the loop counter `i`, the
previous line `fbLinePrev` and the message built so far. -/
def fbLoop : List ActionResult → Nat → String → String → String
  | [], _, _, fbmsgAsString => fbmsgAsString
  | fb :: rest, i, fbLinePrev, fbmsgAsString =>
    if fbLine fb ≠ fbLinePrev then
      fbLoop rest (i + 1) (fbLine fb)
        (fbmsgAsString ++ ("  Issue " ++ toString i ++ ": " ++ fbLine fb))
    else
      fbLoop rest (i + 1) (fbLine fb) fbmsgAsString

/-- The failure message of plan_fb for the records in `lastActionResult`. -/
def fbMessage (lastActionResult : List ActionResult) : String :=
  fbLoop lastActionResult 0 "" "No solution found:\n"

/-- The string returned by plan_fb, as a function of the records found in
`lastActionResult` once the planner has finished. Reading record 0 of an empty vector is
undefined: `none`. -/
def plan_fb (lastActionResult : List ActionResult) : Option String :=
  match lastActionResult with
  | [] => none
  | first :: _ =>
    if first.success then some "SUCCESS" else some (fbMessage lastActionResult)

/-- The message loop of query_fb_nonblock (a second copy of the loop in the source). -/
def fbLoopNonblock : List ActionResult → Nat → String → String → String
  | [], _, _, fbmsgAsString => fbmsgAsString
  | fb :: rest, i, fbLinePrev, fbmsgAsString =>
    if fbLine fb ≠ fbLinePrev then
      fbLoopNonblock rest (i + 1) (fbLine fb)
        (fbmsgAsString ++ ("  Issue " ++ toString i ++ ": " ++ fbLine fb))
    else
      fbLoopNonblock rest (i + 1) (fbLine fb) fbmsgAsString

/-- The failure message of query_fb_nonblock for the records in `lastActionResult`. -/
def fbMessageNonblock (lastActionResult : List ActionResult) : String :=
  fbLoopNonblock lastActionResult 0 "" "No solution found:\n"

/-- The string returned by query_fb_nonblock, given the processing flag and the records
in `lastActionResult`. -/
def query_fb_nonblock (isProcessingAction : Bool) (lastActionResult : List ActionResult) :
    Option String :=
  if isProcessingAction then some ""
  else
    match lastActionResult with
    | [] => none
    | first :: _ =>
      if first.success then some "SUCCESS" else some (fbMessageNonblock lastActionResult)


/-- The last node of a path together with the path, when the failure loop retains it:
the path is non-empty and the level of its last node is not below `deepest_level`. -/
def retainedLeaf (deepest_level : Int) (p : List PredictionTreeNode) :
    Option (List PredictionTreeNode × PredictionTreeNode) :=
  match p.getLast? with
  | none => none
  | some back => if back.level < deepest_level then none else some (p, back)

/-- The retained paths among the solution indices in `idxs`, in that order, each with its
last node. -/
def retainedPaths (tree : PredictionTree) (deepest_level : Int) (idxs : List Nat) :
    List (List PredictionTreeNode × PredictionTreeNode) :=
  idxs.filterMap (fun i => retainedLeaf deepest_level (tree.findSolutionPath i))

/-- The triple reported for a path `p` with last node `back`. -/
def tripleOf (pb : List PredictionTreeNode × PredictionTreeNode) : SearchResult :=
  (pb.1.map (fun node => node.actionCommand), pb.2.feedbackMsg.reason,
    pb.2.feedbackMsg.suggestion)

/-- Whether the path ends in a node of exactly the level `d`. -/
def endsAtLevel (d : Int) (p : List PredictionTreeNode) : Bool :=
  match p.getLast? with
  | none => false
  | some back => decide (back.level = d)

/-- The (reason, suggestion) pair of the last node of a path; two empty strings for the
empty path. -/
def lastDiagnostic (p : List PredictionTreeNode) : String × String :=
  match p.getLast? with
  | none => ("", "")
  | some back => (back.feedbackMsg.reason, back.feedbackMsg.suggestion)

/-- No two neighbours in the list carry the same (reason, suggestion) pair. -/
def consecutiveDistinct : List SearchResult → Bool
  | [] => true
  | [_] => true
  | a :: b :: rest => decide (a.2 ≠ b.2) && consecutiveDistinct (b :: rest)

/-- Joining routine used in the examples: the commands separated by the delimiter. -/
def joinWith (parts : List String) (delim : String) : String :=
  delim.intercalate parts

/-- Example record of a failed step. -/
def failedStep (cmd reason suggestion : String) : ActionResult :=
  ⟨"ERROR", cmd, reason, suggestion, ""⟩

/-- Example record of a successful step. -/
def okStep (cmd : String) : ActionResult :=
  ⟨"SUCCESS", cmd, "", "", ""⟩

/-- Example root node: depth 0, no command, no error. -/
def plainRoot : PredictionTreeNode :=
  ⟨0, false, false, ⟨"", "", "", "", ""⟩, ""⟩

/-- Example node that failed at depth 1. -/
def getCupFails : PredictionTreeNode :=
  ⟨1, false, false, failedStep "get cup" "cup is occluded" "remove the box", "get cup"⟩

/-- Example node that succeeded at depth 1. -/
def getMugOk : PredictionTreeNode :=
  ⟨1, true, false, okStep "get mug", "get mug"⟩

/-- Example node that succeeded at depth 2. -/
def putMugOk : PredictionTreeNode :=
  ⟨2, true, false, okStep "put mug table", "put mug table"⟩

/-- Example node that failed at depth 3. -/
def pourFails : PredictionTreeNode :=
  ⟨3, false, false, failedStep "pour mug glass" "glass is out of reach" "move the glass",
    "pour mug glass"⟩

/-- Example tree: one branch fails at depth 1, another at depth 3. -/
def mixedDepthTree : PredictionTree where
  root := plainRoot
  findSolutionPath := fun i =>
    match i with
    | 0 => [getCupFails]
    | 1 => [getMugOk, putMugOk, pourFails]
    | _ => []
  getLeafNodes := [getCupFails, pourFails]

/-- Example node: a second candidate failing at depth 1 with the same diagnostic. -/
def getCupFailsAgain : PredictionTreeNode :=
  ⟨1, false, false, failedStep "get cup left" "cup is occluded" "remove the box",
    "get cup left"⟩

/-- Example tree: two candidates of the first step fail with the same diagnostic. -/
def repeatedFailureTree : PredictionTree where
  root := plainRoot
  findSolutionPath := fun i =>
    match i with
    | 0 => [getCupFails]
    | 1 => [getCupFailsAgain]
    | _ => []
  getLeafNodes := [getCupFails, getCupFailsAgain]

/-- Example tree: the root carries a fatal parse error and has no children. -/
def fatalRootTree : PredictionTree where
  root := ⟨0, false, true,
    ⟨"ERROR", "", "action cannot be resolved", "check the command", ""⟩, ""⟩
  findSolutionPath := fun _ => []
  getLeafNodes :=
    [⟨0, false, true, ⟨"ERROR", "", "action cannot be resolved", "check the command", ""⟩, ""⟩]

/-- Example tree: the root carries the same feedback record but is not marked fatal; it
has no children either (no candidate for the first step). -/
def exhaustedRootTree : PredictionTree where
  root := ⟨0, false, false,
    ⟨"ERROR", "", "action cannot be resolved", "check the command", ""⟩, ""⟩
  findSolutionPath := fun _ => []
  getLeafNodes :=
    [⟨0, false, false, ⟨"ERROR", "", "action cannot be resolved", "check the command", ""⟩, ""⟩]

/-- Example tree: a two-step plan that succeeds, its leaf at depth 2. -/
def solvedTree : PredictionTree where
  root := plainRoot
  findSolutionPath := fun i =>
    match i with
    | 0 => [getMugOk, putMugOk]
    | _ => []
  getLeafNodes := [putMugOk]

/-- Example records: different (reason, suggestion) pairs that render to the same line. -/
def ambiguousRecords : List ActionResult :=
  [failedStep "" "a Suggestion: b" "c", failedStep "" "a" "b Suggestion: c"]

/-- Example records: a repeated diagnostic followed by a new one. -/
def repeatedRecords : List ActionResult :=
  [failedStep "get cup" "cup is occluded" "remove the box",
   failedStep "get cup left" "cup is occluded" "remove the box",
   failedStep "get mug" "mug is held" "put it down"]

/-- The method `ActionResult::toString`. -/
def ActionResult.toString (r : ActionResult) : String :=
  if r.success then
    "ACTION: '" ++ r.actionCommand ++ "' : SUCCESS"
  else
    "ACTION: '" ++ r.actionCommand ++ "' ERROR: '" ++ r.error ++ "' REASON: '" ++ r.reason
      ++ "' SUGGESTION: '" ++ r.suggestion ++ "' DEVELOPER: '" ++ r.developer ++ "'"

/-- The method `ActionResult::toStringVec`: a vector of five empty strings whose entries
0 to 4 are then assigned. -/
def ActionResult.toStringVec (r : ActionResult) : List String :=
  let res := List.replicate 5 ""
  let res := res.set 0 r.error
  let res := res.set 1 r.actionCommand
  let res := res.set 2 r.reason
  let res := res.set 3 r.suggestion
  let res := res.set 4 r.developer
  res

/-- The method `ActionResult::clear`: it calls `clear()` on the members `error`, `reason`,
`suggestion` and `developer`. -/
def ActionResult.clear (r : ActionResult) : ActionResult :=
  { r with error := "", reason := "", suggestion := "", developer := "" }

/-- The boolean returned by `plan`, as a function of the records found in
`lastActionResult` once the planner has finished: `lastActionResult[0].success()`.
Reading record 0 of an empty vector is undefined: `none`. -/
def plan (lastActionResult : List ActionResult) : Option Bool :=
  match lastActionResult with
  | [] => none
  | first :: _ => some first.success

/-- The boolean returned by `executeBlocking`, as a function of the records found in
`lastActionResult` once the execution has finished: `lastActionResult[0].success()`. -/
def executeBlocking (lastActionResult : List ActionResult) : Option Bool :=
  match lastActionResult with
  | [] => none
  | first :: _ => some first.success

/-- What isReachable reads of the scene and the graph: the agent of a name (if any), the
affordance entities matching a name, the origin `A_BI.org` of the body of an entity, and
the reach test `canReachTo` of an agent for a position. -/
structure ReachQuery (Agent Entity Position : Type) where
  getAgent : String → Option Agent
  getAffordanceEntities : String → List Entity
  bodyOrigin : Entity → Position
  canReachTo : Agent → Position → Bool

/-- The loop of isReachable over the matching entities: `true` at the first entity whose
body position the agent can reach, `false` when the entities are used up. -/
def reachLoop {Agent Entity Position : Type} (q : ReachQuery Agent Entity Position)
    (agent : Agent) : List Entity → Bool
  | [] => false
  | ntt :: rest =>
    if q.canReachTo agent (q.bodyOrigin ntt) then true else reachLoop q agent rest

/-- The lambda `isReachable(agentName, objectName)`. -/
def isReachable {Agent Entity Position : Type} (q : ReachQuery Agent Entity Position)
    (agentName objectName : String) : Bool :=
  match q.getAgent agentName with
  | none => false
  | some agent =>
    let ntts := q.getAffordanceEntities objectName
    if ntts.isEmpty then false else reachLoop q agent ntts

/-- The issue line of the record `p.2` labelled with the index `p.1`. -/
def issueLine (p : Nat × ActionResult) : String :=
  "  Issue " ++ toString p.1 ++ ": " ++ p.2.reason ++ " Suggestion: " ++ p.2.suggestion ++ "\n"

/-- Whether the indexed record `p` starts a run of identical lines in `records`: it is
record 0, or its line differs from the line of the record before it. -/
def startsRun (records : List ActionResult) (p : Nat × ActionResult) : Bool :=
  decide (p.1 = 0) || decide ((records[p.1 - 1]?).map fbLine ≠ some (fbLine p.2))

/-- The first records of the runs of identical lines, each with its index in `records`. -/
def runStarts (records : List ActionResult) : List (Nat × ActionResult) :=
  records.enum.filter (startsRun records)

/-- The (reason, suggestion) pair of a record. -/
def diagnostic (fb : ActionResult) : String × String :=
  (fb.reason, fb.suggestion)

/-- Example query: one agent "robot"; two entities match "cup", the first at distance 3
and the second at distance 1; the robot reaches positions up to distance 2. -/
def tableScene : ReachQuery String String Int where
  getAgent := fun name => if name = "robot" then some "robot" else none
  getAffordanceEntities := fun name => if name = "cup" then ["cup_far", "cup_near"] else []
  bodyOrigin := fun ntt => if ntt = "cup_near" then 1 else 3
  canReachTo := fun _ pos => decide (pos ≤ 2)

/-- Example record: a failed step with all five fields set. -/
def fullRecord : ActionResult :=
  ⟨"ERROR", "get cup", "cup is occluded", "remove the box", "collision at step 3"⟩

/-- Example record: a successful step with text in every field. -/
def slowSuccess : ActionResult :=
  ⟨"SUCCESSFUL_SLOW", "get cup", "took long", "none", "42 iterations"⟩

/-- What the action-sequence planners read and change of the `ExampleActionsECS` object:
the processing flag, the stack of completed actions, and the payloads published with the
"ActionSequence" event (oldest first). -/
structure EcsState where
  processingAction : Bool
  completedActionStack : List String
  actionSequenceEvents : List String
deriving DecidableEq, Repr

/-- The command string built from the solution steps: each step followed by ";". -/
def newCmdOf (res : List String) : String :=
  res.foldl (fun newCmd step => newCmd ++ step ++ ";") ""

/-- The lambda `predictActionSequence`: `tree` is the pointer returned by planActionTree
(`none` for a null pointer), `findSolutionPathAsStrings` the tree query of that name. -/
def predictActionSequence (findSolutionPathAsStrings : PredictionTree → List String)
    (tree : Option PredictionTree) : List String :=
  match tree with
  | some t => findSolutionPathAsStrings t
  | none => []

/-- The function `_planActionSequenceThreaded`, given the pointer returned by
planActionTree. The tree is dereferenced without a check: the outcome for a null pointer is
undefined (`none`). -/
def _planActionSequenceThreaded (findSolutionPathAsStrings : PredictionTree → List String)
    (ex : EcsState) (tree : Option PredictionTree) : Option EcsState :=
  match tree with
  | none => none
  | some t =>
    let res := findSolutionPathAsStrings t
    if res.isEmpty then
      some { ex with processingAction := false, completedActionStack := [] }
    else
      some { ex with actionSequenceEvents := ex.actionSequenceEvents ++ [newCmdOf res] }

/-- The lambda `planActionSequence`, given the pointer returned by planActionTree and the
records found in `lastActionResult` after the wait. It yields the returned boolean and the
command published with "ActionSequence" (if any). The tree is dereferenced without a
check: the outcome for a null pointer is undefined (`none`), as is reading record 0 of an
empty vector. -/
def planActionSequence (findSolutionPathAsStrings : PredictionTree → List String)
    (tree : Option PredictionTree) (blocking : Bool) (lastActionResult : List ActionResult) :
    Option (Bool × Option String) :=
  match tree with
  | none => none
  | some t =>
    let res := findSolutionPathAsStrings t
    if res.isEmpty then some (false, none)
    else if blocking then
      match lastActionResult with
      | [] => none
      | first :: _ => some (first.success, some (newCmdOf res))
    else some (true, some (newCmdOf res))

/-- Example tree query: the grounded commands of solution path 0 when its last node is
marked success, else nothing. -/
def commandsOfSolution (t : PredictionTree) : List String :=
  match (t.findSolutionPath 0).getLast? with
  | some back =>
    if back.success then (t.findSolutionPath 0).map (fun node => node.actionCommand) else []
  | none => []

/-- Example state: the processing flag set, two completed actions, nothing published. -/
def busyState : EcsState :=
  ⟨true, ["get mug", "put mug table"], []⟩

/-- Example record: a failed step without reason and suggestion. -/
def silentFailure : ActionResult :=
  ⟨"ERROR", "get cup", "", "", ""⟩

/-- Example tree: the root is not marked fatal and carries an error code, while solution
path 0 is not empty. -/
def rootErrorTree : PredictionTree where
  root := ⟨0, false, false,
    ⟨"ERROR", "", "scene is not ready", "wait for the perception", ""⟩, ""⟩
  findSolutionPath := fun i =>
    match i with
    | 0 => [getCupFails]
    | _ => []
  getLeafNodes := [getCupFails]

/-! ## The success test -/

theorem char_toNat_inj {a b : Char} (h : a.toNat = b.toNat) : a = b := by
  apply Char.ext
  apply UInt32.ext
  simpa [Char.toNat, UInt32.toNat] using h

theorem strncmp_eq_zero_iff (p : List Char) (hp : ∀ c ∈ p, c ≠ Char.ofNat 0) (s : List Char) :
    strncmp (s.takeWhile (fun c => c != Char.ofNat 0)) p p.length = 0 ↔ p <+: s := by
  induction p generalizing s with
  | nil => simp [strncmp]
  | cons b bs ih =>
    have hb : b ≠ Char.ofNat 0 := hp b (List.mem_cons_self _ _)
    have hbs : ∀ c ∈ bs, c ≠ Char.ofNat 0 := fun c hc => hp c (List.mem_cons_of_mem _ hc)
    have hb0 : ¬ ((0 : Int) - (b.toNat : Int) = 0) := by
      intro h
      have h0 : b.toNat = (Char.ofNat 0).toNat := by
        have : (Char.ofNat 0).toNat = 0 := by decide
        omega
      exact hb (char_toNat_inj h0)
    cases s with
    | nil =>
      rw [List.takeWhile_nil, List.length_cons, strncmp]
      constructor
      · intro h; exact absurd h hb0
      · intro h; simp at h
    | cons a as =>
      by_cases ha : a = Char.ofNat 0
      · have hab : ¬ (b = a) := fun h => hb (h.trans ha)
        rw [List.takeWhile_cons_of_neg (by simp [ha]), List.length_cons, strncmp]
        constructor
        · intro h; exact absurd h hb0
        · intro h; exact absurd (List.cons_prefix_cons.mp h).1 hab
      · rw [List.takeWhile_cons_of_pos (by simp [ha]), List.length_cons, strncmp]
        by_cases hab : a = b
        · subst hab
          rw [if_pos rfl, if_neg ha, ih hbs as, List.cons_prefix_cons]
          simp
        · rw [if_neg hab]
          constructor
          · intro h
            exact absurd (char_toNat_inj (by omega)) hab
          · intro h
            exact absurd (List.cons_prefix_cons.mp h).1.symm hab

theorem success_iff_isPrefix (r : ActionResult) :
    r.success = true ↔ "SUCCESS".data <+: r.error.data := by
  have h := strncmp_eq_zero_iff "SUCCESS".data (by decide) r.error.data
  simp only [ActionResult.success, STRNEQ, c_str, beq_iff_eq]
  exact h


/-- C1: success() holds exactly when the error code begins with the seven characters
"SUCCESS"; "SUCCESS" and "SUCCESSFUL_SLOW" succeed, "SUCCES" and the empty code do not, and
no code shorter than seven characters succeeds. -/
theorem success_iff_begins_with_SUCCESS :
    (∀ r : ActionResult, r.success = true ↔ "SUCCESS".data <+: r.error.data) ∧
    (ActionResult.mk "SUCCESS" "" "" "" "").success = true ∧
    (ActionResult.mk "SUCCESSFUL_SLOW" "" "" "" "").success = true ∧
    (ActionResult.mk "SUCCES" "" "" "" "").success = false ∧
    (ActionResult.mk "" "" "" "" "").success = false ∧
    (∀ r : ActionResult, r.error.length < 7 → r.success = false) := by
  refine ⟨success_iff_isPrefix, by decide, by decide, by decide, by decide, ?_⟩
  intro r hlen
  cases h : r.success with
  | false => rfl
  | true =>
    have hp := (success_iff_isPrefix r).mp h
    have hle := List.IsPrefix.length_le hp
    have h7 : "SUCCESS".data.length = 7 := by decide
    have : r.error.length = r.error.data.length := rfl
    omega

/-- Witness for C1 at the six-character code "SUCCES". -/
theorem success_iff_begins_with_SUCCESS_witness :
    (ActionResult.mk "SUCCES" "cmd" "" "" "").error.length < 7 ∧
    (ActionResult.mk "SUCCES" "cmd" "" "" "").success = false :=
  ⟨by decide, success_iff_begins_with_SUCCESS.2.2.2.2.2 ⟨"SUCCES", "cmd", "", "", ""⟩ (by decide)⟩

/-! ## The failure loop of plan_fb_rich -/

theorem failureLoop_nil (tree : PredictionTree) (d : Int) (fuel idx : Nat)
    (ars : List ActionResult) (srs : List SearchResult) :
    failureLoop tree d fuel idx [] ars srs = some (ars, srs) := by
  unfold failureLoop
  simp

theorem getLast?_of_ne_nil {α : Type} {l : List α} (h : l ≠ []) :
    ∃ back, l.getLast? = some back := by
  cases hl : l.getLast? with
  | none => exact absurd (List.getLast?_eq_none_iff.mp hl) h
  | some b => exact ⟨b, rfl⟩

/-- The loop started at index `idx` on the path of that index, when the paths of the next
`n` indices are non-empty and the one after them is empty: it returns after `n` iterations
with one record and one triple appended per retained path. -/
theorem failureLoop_run (tree : PredictionTree) (d : Int) (n : Nat) :
    ∀ (idx fuel : Nat) (ars : List ActionResult) (srs : List SearchResult),
      (∀ i, idx ≤ i → i < idx + n → tree.findSolutionPath i ≠ []) →
      tree.findSolutionPath (idx + n) = [] →
      n ≤ fuel →
      failureLoop tree d fuel idx (tree.findSolutionPath idx) ars srs =
        some (ars ++ (retainedPaths tree d (List.range' idx n)).map (fun pb => pb.2.feedbackMsg),
              srs ++ (retainedPaths tree d (List.range' idx n)).map tripleOf) := by
  induction n with
  | zero =>
    intro idx fuel ars srs _ hend _
    rw [Nat.add_zero] at hend
    rw [hend, failureLoop_nil]
    simp [retainedPaths]
  | succ n ih =>
    intro idx fuel ars srs hne hend hfuel
    obtain ⟨f, rfl⟩ : ∃ f, fuel = f + 1 := ⟨fuel - 1, by omega⟩
    have h0 : tree.findSolutionPath idx ≠ [] := hne idx (Nat.le_refl _) (by omega)
    obtain ⟨back, hback⟩ := getLast?_of_ne_nil h0
    have hrec := fun ars srs => ih (idx + 1) f ars srs
      (fun i h1 h2 => hne i (by omega) (by omega))
      (by rw [show idx + 1 + n = idx + (n + 1) by omega]; exact hend) (by omega)
    unfold failureLoop
    rw [hback]
    simp only [retainedPaths, List.range'_succ, List.filterMap_cons] at hrec ⊢
    by_cases hlt : back.level < d
    · have hrep : retainedLeaf d (tree.findSolutionPath idx) = none := by
        simp [retainedLeaf, hback, hlt]
      simp only [hlt, if_true, hrep]
      exact hrec ars srs
    · have hrep : retainedLeaf d (tree.findSolutionPath idx) =
          some (tree.findSolutionPath idx, back) := by
        simp [retainedLeaf, hback, hlt]
      simp only [hlt, if_false, hrep]
      rw [hrec]
      simp [tripleOf]

theorem rootFailure_eq_false_iff (tree : PredictionTree) :
    rootFailure tree = false ↔
      tree.findSolutionPath 0 ≠ [] ∧ tree.root.feedbackMsg.error = "" := by
  simp [rootFailure, List.isEmpty_iff]

/-- The no-plan branch of plan_fb_rich: with the first `k` paths non-empty and path `k`
empty, `k` iterations suffice and the call returns the triples of the retained paths and
publishes their records. -/
theorem plan_fb_rich_noPlan (concat : List String → String → String) (fuel : Nat)
    (tree : PredictionTree) (seq : List String) (k : Nat)
    (hroot : rootFailure tree = false) (hfull : fullSuccess tree seq = false)
    (hne : ∀ i, i < k → tree.findSolutionPath i ≠ [])
    (hend : tree.findSolutionPath k = []) (hfuel : k ≤ fuel) :
    plan_fb_rich concat fuel tree seq =
      some ⟨(retainedPaths tree (deepestLevel tree.getLeafNodes) (List.range k)).map tripleOf,
            none,
            some ((retainedPaths tree (deepestLevel tree.getLeafNodes) (List.range k)).map
              (fun pb => pb.2.feedbackMsg))⟩ := by
  have hrun := failureLoop_run tree (deepestLevel tree.getLeafNodes) k 0 fuel [] []
    (fun i _ h2 => hne i (by omega)) (by rw [Nat.zero_add]; exact hend) hfuel
  unfold plan_fb_rich
  simp only [hroot, hfull, hrun, List.nil_append, List.range_eq_range']
  simp

theorem le_foldl_max (leafs : List PredictionTreeNode) :
    ∀ init : Int,
      init ≤ leafs.foldl (fun deepest_level leaf => max deepest_level leaf.level) init ∧
      ∀ leaf ∈ leafs,
        leaf.level ≤ leafs.foldl (fun deepest_level leaf => max deepest_level leaf.level) init := by
  induction leafs with
  | nil => intro init; simp
  | cons x xs ih =>
    intro init
    obtain ⟨h1, h2⟩ := ih (max init x.level)
    simp only [List.foldl_cons, List.mem_cons]
    refine ⟨le_trans (le_max_left _ _) h1, ?_⟩
    rintro leaf (rfl | hmem)
    · exact le_trans (le_max_right _ _) h1
    · exact h2 leaf hmem

theorem foldl_max_attained (leafs : List PredictionTreeNode) :
    ∀ init : Int,
      leafs.foldl (fun deepest_level leaf => max deepest_level leaf.level) init = init ∨
      ∃ leaf ∈ leafs,
        leaf.level = leafs.foldl (fun deepest_level leaf => max deepest_level leaf.level) init := by
  induction leafs with
  | nil => intro init; simp
  | cons x xs ih =>
    intro init
    simp only [List.foldl_cons, List.mem_cons]
    rcases ih (max init x.level) with h | ⟨leaf, hmem, hlev⟩
    · rw [h]
      rcases max_choice init x.level with hm | hm
      · left; exact hm
      · right; exact ⟨x, Or.inl rfl, hm.symm⟩
    · right; exact ⟨leaf, Or.inr hmem, hlev⟩

theorem level_le_deepestLevel (leafs : List PredictionTreeNode) :
    ∀ leaf ∈ leafs, leaf.level ≤ deepestLevel leafs :=
  (le_foldl_max leafs 0).2

theorem deepestLevel_is_max (leafs : List PredictionTreeNode) (hne : leafs ≠ [])
    (hpos : ∀ leaf ∈ leafs, 0 ≤ leaf.level) :
    ∃ leaf ∈ leafs, leaf.level = deepestLevel leafs := by
  rcases foldl_max_attained leafs 0 with h | h
  · obtain ⟨x, hx⟩ := List.exists_mem_of_ne_nil leafs hne
    refine ⟨x, hx, ?_⟩
    have h1 := level_le_deepestLevel leafs x hx
    have h2 := hpos x hx
    unfold deepestLevel at h1 ⊢
    omega
  · exact h

/-- When every listed path ends at a node not deeper than `d`, the retained paths are those
ending exactly at level `d`. -/
theorem retainedPaths_map_tripleOf (tree : PredictionTree) (d : Int) (idxs : List Nat)
    (h : ∀ i ∈ idxs, ∀ back, (tree.findSolutionPath i).getLast? = some back → back.level ≤ d) :
    (retainedPaths tree d idxs).map tripleOf =
      (idxs.filter (fun i => endsAtLevel d (tree.findSolutionPath i))).map
        (fun i => ((tree.findSolutionPath i).map (fun node => node.actionCommand),
          lastDiagnostic (tree.findSolutionPath i))) := by
  induction idxs with
  | nil => simp [retainedPaths]
  | cons i rest ih =>
    have ih2 := ih (fun j hj => h j (List.mem_cons_of_mem _ hj))
    have hi := h i (List.mem_cons_self _ _)
    simp only [retainedPaths, List.filterMap_cons, List.filter_cons] at ih2 ⊢
    cases hback : (tree.findSolutionPath i).getLast? with
    | none => simpa [retainedLeaf, endsAtLevel, hback] using ih2
    | some back =>
      have hle := hi back hback
      by_cases hlt : back.level < d
      · have hneq : ¬ back.level = d := by omega
        simpa [retainedLeaf, endsAtLevel, hback, hlt, hneq] using ih2
      · have heq : back.level = d := by omega
        simpa [retainedLeaf, endsAtLevel, hback, heq, tripleOf, lastDiagnostic] using ih2

/-! ## plan_fb_rich: which failures are reported -/

/-- C2: in the no-plan branch of plan_fb_rich (solution path 0 non-empty, no root error, no
full success), with `k` the first index whose path is empty and every enumerated path
ending at one of the leaves of getLeafNodes, the call returns exactly, in solution-index
order, the triples of the enumerated paths whose last node is at the deepest level; that
level bounds every leaf level and is the level of some leaf when no level is negative. -/
theorem plan_fb_rich_reports_deepest_only (concat : List String → String → String)
    (fuel : Nat) (tree : PredictionTree) (seq : List String) (k : Nat)
    (hroot : rootFailure tree = false) (hfull : fullSuccess tree seq = false)
    (hne : ∀ i, i < k → tree.findSolutionPath i ≠ [])
    (hend : tree.findSolutionPath k = [])
    (hleaf : ∀ i, i < k → ∀ back, (tree.findSolutionPath i).getLast? = some back →
      back ∈ tree.getLeafNodes)
    (hfuel : k ≤ fuel) :
    ∃ r, plan_fb_rich concat fuel tree seq = some r ∧
      r.returned =
        ((List.range k).filter
          (fun i => endsAtLevel (deepestLevel tree.getLeafNodes) (tree.findSolutionPath i))).map
          (fun i => ((tree.findSolutionPath i).map (fun node => node.actionCommand),
            lastDiagnostic (tree.findSolutionPath i))) ∧
      (∀ leaf ∈ tree.getLeafNodes, leaf.level ≤ deepestLevel tree.getLeafNodes) ∧
      ((∀ leaf ∈ tree.getLeafNodes, 0 ≤ leaf.level) →
        ∃ leaf ∈ tree.getLeafNodes, leaf.level = deepestLevel tree.getLeafNodes) := by
  refine ⟨_, plan_fb_rich_noPlan concat fuel tree seq k hroot hfull hne hend hfuel, ?_,
    level_le_deepestLevel _, ?_⟩
  · apply retainedPaths_map_tripleOf
    intro i hi back hback
    exact level_le_deepestLevel _ back (hleaf i (List.mem_range.mp hi) back hback)
  · intro hpos
    have h0 : tree.findSolutionPath 0 ≠ [] := ((rootFailure_eq_false_iff tree).mp hroot).1
    have hk : 0 < k := by
      rcases Nat.eq_zero_or_pos k with hz | hz
      · rw [hz] at hend; exact absurd hend h0
      · exact hz
    obtain ⟨back, hback⟩ := getLast?_of_ne_nil h0
    have hmem := hleaf 0 hk back hback
    exact deepestLevel_is_max _ (List.ne_nil_of_mem hmem) hpos

/-- Witness for C2: one branch failing at depth 1, another at depth 3; only the depth-3
failure is returned. -/
theorem plan_fb_rich_reports_deepest_only_witness :
    ∃ r, plan_fb_rich joinWith 2 mixedDepthTree ["get mug", "put mug table", "pour mug glass"]
        = some r ∧
      r.returned =
        ((List.range 2).filter
          (fun i => endsAtLevel (deepestLevel mixedDepthTree.getLeafNodes)
            (mixedDepthTree.findSolutionPath i))).map
          (fun i => ((mixedDepthTree.findSolutionPath i).map (fun node => node.actionCommand),
            lastDiagnostic (mixedDepthTree.findSolutionPath i))) ∧
      (∀ leaf ∈ mixedDepthTree.getLeafNodes,
        leaf.level ≤ deepestLevel mixedDepthTree.getLeafNodes) ∧
      ((∀ leaf ∈ mixedDepthTree.getLeafNodes, 0 ≤ leaf.level) →
        ∃ leaf ∈ mixedDepthTree.getLeafNodes,
          leaf.level = deepestLevel mixedDepthTree.getLeafNodes) :=
  plan_fb_rich_reports_deepest_only joinWith 2 mixedDepthTree
    ["get mug", "put mug table", "pour mug glass"] 2 (by decide) (by decide)
    (by decide) (by decide)
    (by
      intro i hi back hback
      have hcases : i = 0 ∨ i = 1 := by omega
      rcases hcases with rfl | rfl
      · have hb : back = getCupFails := by
          simpa [mixedDepthTree] using hback.symm
        rw [hb]; decide
      · have hb : back = pourFails := by
          simpa [mixedDepthTree] using hback.symm
        rw [hb]; decide)
    (by decide)

/-- The call on the example tree with branches failing at depth 1 and at depth 3. -/
theorem plan_fb_rich_mixedDepthTree :
    plan_fb_rich joinWith 2 mixedDepthTree ["get mug", "put mug table", "pour mug glass"] =
      some ⟨[(["get mug", "put mug table", "pour mug glass"], "glass is out of reach",
              "move the glass")],
            none, some [pourFails.feedbackMsg]⟩ := by
  decide

theorem mem_retainedPaths {tree : PredictionTree} {d : Int} {idxs : List Nat}
    {pb : List PredictionTreeNode × PredictionTreeNode}
    (h : pb ∈ retainedPaths tree d idxs) :
    ∃ i ∈ idxs, pb.1 = tree.findSolutionPath i ∧
      (tree.findSolutionPath i).getLast? = some pb.2 ∧ ¬ pb.2.level < d := by
  simp only [retainedPaths, List.mem_filterMap] at h
  obtain ⟨i, hi, hret⟩ := h
  refine ⟨i, hi, ?_⟩
  unfold retainedLeaf at hret
  cases hback : (tree.findSolutionPath i).getLast? with
  | none => simp [hback] at hret
  | some back =>
    rw [hback] at hret
    by_cases hlt : back.level < d
    · simp [hlt] at hret
    · simp only [hlt, if_false, Option.some.injEq] at hret
      subst hret
      exact ⟨rfl, rfl, hlt⟩

/-- C3 (counterexample): two candidates of the first step fail with the same reason and
suggestion; plan_fb_rich returns both triples, one after the other. -/
theorem plan_fb_rich_repeats_diagnostic :
    ∃ r, plan_fb_rich joinWith 2 repeatedFailureTree ["get cup"] = some r ∧
      r.returned = [(["get cup"], "cup is occluded", "remove the box"),
                    (["get cup left"], "cup is occluded", "remove the box")] ∧
      consecutiveDistinct r.returned = false :=
  ⟨⟨[(["get cup"], "cup is occluded", "remove the box"),
      (["get cup left"], "cup is occluded", "remove the box")], none,
     some [getCupFails.feedbackMsg, getCupFailsAgain.feedbackMsg]⟩,
   by decide, rfl, by decide⟩

/-- C3 (amended): in the no-plan branch nothing is suppressed: the returned list has one
triple for every retained path (non-empty enumerated path whose last node has a level not
below the deepest level), in order, carrying the reason and suggestion of that path's
last node, whether or not the preceding triple carries the same pair. -/
theorem plan_fb_rich_returns_every_retained (concat : List String → String → String)
    (fuel : Nat) (tree : PredictionTree) (seq : List String) (k : Nat)
    (hroot : rootFailure tree = false) (hfull : fullSuccess tree seq = false)
    (hne : ∀ i, i < k → tree.findSolutionPath i ≠ [])
    (hend : tree.findSolutionPath k = []) (hfuel : k ≤ fuel) :
    ∃ r, plan_fb_rich concat fuel tree seq = some r ∧
      r.returned.length =
        (retainedPaths tree (deepestLevel tree.getLeafNodes) (List.range k)).length ∧
      r.returned.map (fun t => t.2) =
        (retainedPaths tree (deepestLevel tree.getLeafNodes) (List.range k)).map
          (fun pb => (pb.2.feedbackMsg.reason, pb.2.feedbackMsg.suggestion)) := by
  refine ⟨_, plan_fb_rich_noPlan concat fuel tree seq k hroot hfull hne hend hfuel, ?_, ?_⟩
  · simp
  · simp [tripleOf]

/-- Witness for C3 (amended): the example tree with the repeated diagnostic. -/
theorem plan_fb_rich_returns_every_retained_witness :
    ∃ r, plan_fb_rich joinWith 2 repeatedFailureTree ["get cup"] = some r ∧
      r.returned.length =
        (retainedPaths repeatedFailureTree (deepestLevel repeatedFailureTree.getLeafNodes)
          (List.range 2)).length ∧
      r.returned.map (fun t => t.2) =
        (retainedPaths repeatedFailureTree (deepestLevel repeatedFailureTree.getLeafNodes)
          (List.range 2)).map
          (fun pb => (pb.2.feedbackMsg.reason, pb.2.feedbackMsg.suggestion)) :=
  plan_fb_rich_returns_every_retained joinWith 2 repeatedFailureTree ["get cup"] 2
    (by decide) (by decide) (by decide) (by decide) (by decide)

/-- C6: in the no-plan branch the batch published with the "ActionResult" event holds the
feedback record of the last node of every retained path, in order and without
deduplication; it is as long as the returned list and its records carry, position by
position, the reason and suggestion of the returned triples. No action sequence is
published. -/
theorem plan_fb_rich_published_batch (concat : List String → String → String)
    (fuel : Nat) (tree : PredictionTree) (seq : List String) (k : Nat)
    (hroot : rootFailure tree = false) (hfull : fullSuccess tree seq = false)
    (hne : ∀ i, i < k → tree.findSolutionPath i ≠ [])
    (hend : tree.findSolutionPath k = []) (hfuel : k ≤ fuel) :
    ∃ r batch, plan_fb_rich concat fuel tree seq = some r ∧
      r.actionResult = some batch ∧ r.actionSequence = none ∧
      batch = (retainedPaths tree (deepestLevel tree.getLeafNodes) (List.range k)).map
        (fun pb => pb.2.feedbackMsg) ∧
      batch.length = r.returned.length ∧
      (∀ j (h1 : j < batch.length) (h2 : j < r.returned.length),
        batch[j].reason = r.returned[j].2.1 ∧ batch[j].suggestion = r.returned[j].2.2) := by
  refine ⟨_, _, plan_fb_rich_noPlan concat fuel tree seq k hroot hfull hne hend hfuel,
    rfl, rfl, rfl, ?_, ?_⟩
  · simp
  · intro j h1 h2
    simp [tripleOf]

/-- Witness for C6: the example tree with the repeated diagnostic; both records are in the
batch. -/
theorem plan_fb_rich_published_batch_witness :
    ∃ r batch, plan_fb_rich joinWith 2 repeatedFailureTree ["get cup"] = some r ∧
      r.actionResult = some batch ∧ r.actionSequence = none ∧
      batch = (retainedPaths repeatedFailureTree
        (deepestLevel repeatedFailureTree.getLeafNodes) (List.range 2)).map
        (fun pb => pb.2.feedbackMsg) ∧
      batch.length = r.returned.length ∧
      (∀ j (h1 : j < batch.length) (h2 : j < r.returned.length),
        batch[j].reason = r.returned[j].2.1 ∧ batch[j].suggestion = r.returned[j].2.2) :=
  plan_fb_rich_published_batch joinWith 2 repeatedFailureTree ["get cup"] 2
    (by decide) (by decide) (by decide) (by decide) (by decide)

/-! ## plan_fb_rich: root failure and full success -/

theorem failureLoop_commands_ne_nil (tree : PredictionTree) (d : Int) :
    ∀ (fuel idx : Nat) (slnPath : List PredictionTreeNode) (ars : List ActionResult)
      (srs : List SearchResult) (res : List ActionResult × List SearchResult),
      failureLoop tree d fuel idx slnPath ars srs = some res →
      (∀ t ∈ srs, t.1 ≠ []) → ∀ t ∈ res.2, t.1 ≠ [] := by
  intro fuel
  induction fuel with
  | zero =>
    intro idx slnPath ars srs res hrun hsrs
    unfold failureLoop at hrun
    cases hback : slnPath.getLast? with
    | none =>
      simp only [hback, Option.some.injEq] at hrun
      rw [← hrun]; exact hsrs
    | some back => simp [hback] at hrun
  | succ f ih =>
    intro idx slnPath ars srs res hrun hsrs
    unfold failureLoop at hrun
    cases hback : slnPath.getLast? with
    | none =>
      simp only [hback, Option.some.injEq] at hrun
      rw [← hrun]; exact hsrs
    | some back =>
      have hpath : slnPath ≠ [] := by
        intro hnil
        rw [hnil] at hback
        simp at hback
      simp only [hback] at hrun
      by_cases hlt : back.level < d
      · simp only [hlt, if_true] at hrun
        exact ih _ _ _ _ _ hrun hsrs
      · simp only [hlt, if_false] at hrun
        refine ih _ _ _ _ _ hrun ?_
        intro t ht
        rcases List.mem_append.mp ht with h1 | h1
        · exact hsrs t h1
        · simp only [List.mem_singleton] at h1
          rw [h1]
          simpa using hpath

/-- Whatever plan_fb_rich returns for a tree with a non-empty solution path 0 and no root
error, each returned triple has a non-empty command list. -/
theorem plan_fb_rich_commands_ne_nil (concat : List String → String → String) (fuel : Nat)
    (tree : PredictionTree) (seq : List String) (r : PlanFbRichResult)
    (hroot : rootFailure tree = false) (hrun : plan_fb_rich concat fuel tree seq = some r) :
    ∀ t ∈ r.returned, t.1 ≠ [] := by
  unfold plan_fb_rich at hrun
  simp only [hroot] at hrun
  by_cases hfull : fullSuccess tree seq = true
  · simp only [hfull, if_true, Bool.false_eq_true, if_false, Option.some.injEq] at hrun
    rw [← hrun]
    simp
  · simp only [hfull, Bool.false_eq_true, if_false] at hrun
    cases hloop : failureLoop tree (deepestLevel tree.getLeafNodes) fuel 0
        (tree.findSolutionPath 0) [] [] with
    | none => simp [hloop] at hrun
    | some res =>
      have hres := failureLoop_commands_ne_nil tree _ fuel 0 _ [] [] res hloop (by simp)
      simp only [hloop, Option.some.injEq] at hrun
      rw [← hrun]
      exact hres

theorem plan_fb_rich_rootFailure (concat : List String → String → String) (fuel : Nat)
    (tree : PredictionTree) (seq : List String) (hroot : rootFailure tree = true) :
    plan_fb_rich concat fuel tree seq =
      some ⟨[([], tree.root.feedbackMsg.reason, tree.root.feedbackMsg.suggestion)],
            none, none⟩ := by
  unfold plan_fb_rich
  simp [hroot]

/-- C7 (counterexample): a root with a fatal parse error and a root that is not fatal but
has no children either (so that no plan is found) get the same answer from
plan_fb_rich. -/
theorem plan_fb_rich_fatal_not_distinct :
    fatalRootTree.root.fatalError = true ∧
    fatalRootTree.root.feedbackMsg.error ≠ "" ∧
    fatalRootTree.findSolutionPath 0 = [] ∧
    exhaustedRootTree.root.fatalError = false ∧
    fullSuccess exhaustedRootTree ["get cup"] = false ∧
    plan_fb_rich joinWith 1 fatalRootTree ["get cup"] =
      some ⟨[([], "action cannot be resolved", "check the command")], none, none⟩ ∧
    plan_fb_rich joinWith 1 exhaustedRootTree ["get cup"] =
      some ⟨[([], "action cannot be resolved", "check the command")], none, none⟩ := by
  decide

/-- C7 (amended): for a root with a fatal parse error (fatalError set, non-empty error
code, empty solution path 0) plan_fb_rich returns exactly the one triple (no commands,
root reason, root suggestion) and publishes nothing; this answer differs from every
result returned for a tree whose solution path 0 is non-empty and whose root carries no
error code; and every root that is not marked fatal but has an empty solution path 0 or
carries an error code gets an answer of the same one-element form. -/
theorem plan_fb_rich_fatal_root (concat : List String → String → String) (fuel : Nat)
    (tree : PredictionTree) (seq : List String)
    (_hfatal : tree.root.fatalError = true)
    (_herr : tree.root.feedbackMsg.error ≠ "")
    (hpath : tree.findSolutionPath 0 = []) :
    plan_fb_rich concat fuel tree seq =
      some ⟨[([], tree.root.feedbackMsg.reason, tree.root.feedbackMsg.suggestion)],
            none, none⟩ ∧
    (∀ (concat2 : List String → String → String) (fuel2 : Nat) (tree2 : PredictionTree)
      (seq2 : List String) (r2 : PlanFbRichResult),
      tree2.findSolutionPath 0 ≠ [] → tree2.root.feedbackMsg.error = "" →
      plan_fb_rich concat2 fuel2 tree2 seq2 = some r2 →
      r2.returned ≠
        [([], tree.root.feedbackMsg.reason, tree.root.feedbackMsg.suggestion)]) ∧
    (∀ (concat3 : List String → String → String) (fuel3 : Nat) (tree3 : PredictionTree)
      (seq3 : List String),
      tree3.root.fatalError = false →
      (tree3.findSolutionPath 0 = [] ∨ tree3.root.feedbackMsg.error ≠ "") →
      plan_fb_rich concat3 fuel3 tree3 seq3 =
        some ⟨[([], tree3.root.feedbackMsg.reason, tree3.root.feedbackMsg.suggestion)],
              none, none⟩) := by
  refine ⟨?_, ?_, ?_⟩
  · apply plan_fb_rich_rootFailure
    simp [rootFailure, hpath]
  · intro concat2 fuel2 tree2 seq2 r2 hp2 he2 hrun heq
    have hroot2 : rootFailure tree2 = false := (rootFailure_eq_false_iff tree2).mpr ⟨hp2, he2⟩
    have h := plan_fb_rich_commands_ne_nil concat2 fuel2 tree2 seq2 r2 hroot2 hrun
    rw [heq] at h
    exact h _ (List.mem_singleton.mpr rfl) rfl
  · intro concat3 fuel3 tree3 seq3 _ hcond
    apply plan_fb_rich_rootFailure
    cases hroot3 : rootFailure tree3 with
    | true => rfl
    | false =>
      have h := (rootFailure_eq_false_iff tree3).mp hroot3
      rcases hcond with hp | he
      · exact absurd hp h.1
      · exact absurd h.2 he

/-- Witness for C7 (amended): the example tree with the fatal root, compared with the
example tree whose branches fail at depth 1 and 3, with the root that is not fatal and has
no children, and with the root that is not fatal and carries an error code above a
non-empty solution path 0. -/
theorem plan_fb_rich_fatal_root_witness :
    plan_fb_rich joinWith 0 fatalRootTree ["fly"] =
      some ⟨[([], "action cannot be resolved", "check the command")], none, none⟩ ∧
    plan_fb_rich joinWith 2 mixedDepthTree ["get mug", "put mug table", "pour mug glass"] =
      some ⟨[(["get mug", "put mug table", "pour mug glass"], "glass is out of reach",
              "move the glass")],
            none, some [pourFails.feedbackMsg]⟩ ∧
    [((["get mug", "put mug table", "pour mug glass"], "glass is out of reach",
        "move the glass") : SearchResult)] ≠
      [([], "action cannot be resolved", "check the command")] ∧
    exhaustedRootTree.root.fatalError = false ∧
    plan_fb_rich joinWith 1 exhaustedRootTree ["get cup"] =
      some ⟨[([], "action cannot be resolved", "check the command")], none, none⟩ ∧
    rootErrorTree.root.fatalError = false ∧
    rootErrorTree.findSolutionPath 0 ≠ [] ∧
    plan_fb_rich joinWith 1 rootErrorTree ["get cup"] =
      some ⟨[([], "scene is not ready", "wait for the perception")], none, none⟩ :=
  ⟨(plan_fb_rich_fatal_root joinWith 0 fatalRootTree ["fly"] (by decide) (by decide)
      (by decide)).1,
   by decide,
   (plan_fb_rich_fatal_root joinWith 0 fatalRootTree ["fly"] (by decide)
      (by decide) (by decide)).2.1 joinWith 2 mixedDepthTree
      ["get mug", "put mug table", "pour mug glass"]
      ⟨[(["get mug", "put mug table", "pour mug glass"], "glass is out of reach",
          "move the glass")],
        none, some [pourFails.feedbackMsg]⟩
      (by decide) (by decide) (by decide),
   by decide,
   (plan_fb_rich_fatal_root joinWith 0 fatalRootTree ["fly"] (by decide)
      (by decide) (by decide)).2.2 joinWith 1 exhaustedRootTree ["get cup"] (by decide)
      (Or.inl (by decide)),
   by decide,
   by decide,
   (plan_fb_rich_fatal_root joinWith 0 fatalRootTree ["fly"] (by decide)
      (by decide) (by decide)).2.2 joinWith 1 rootErrorTree ["get cup"] (by decide)
      (Or.inr (by decide))⟩

theorem fullSuccess_of_back {tree : PredictionTree} {seq : List String}
    {back : PredictionTreeNode} (hback : (tree.findSolutionPath 0).getLast? = some back) :
    fullSuccess tree seq =
      (back.success && (tree.findSolutionPath 0).length == seq.length) := by
  simp [fullSuccess, hback]

theorem plan_fb_rich_of_fullSuccess (concat : List String → String → String) (fuel : Nat)
    (tree : PredictionTree) (seq : List String)
    (hroot : rootFailure tree = false) (hfull : fullSuccess tree seq = true) :
    plan_fb_rich concat fuel tree seq =
      some ⟨[], some (concat ((tree.findSolutionPath 0).map (fun node => node.actionCommand))
        ";"), none⟩ := by
  unfold plan_fb_rich
  simp [hroot, hfull]

theorem actionSequence_eq_none_of_not_fullSuccess (concat : List String → String → String)
    (fuel : Nat) (tree : PredictionTree) (seq : List String) (r : PlanFbRichResult)
    (hfull : fullSuccess tree seq = false)
    (hrun : plan_fb_rich concat fuel tree seq = some r) : r.actionSequence = none := by
  unfold plan_fb_rich at hrun
  by_cases hroot : rootFailure tree = true
  · simp only [hroot, if_true, Option.some.injEq] at hrun
    rw [← hrun]
  · simp only [hroot, hfull, Bool.false_eq_true, if_false] at hrun
    cases hloop : failureLoop tree (deepestLevel tree.getLeafNodes) fuel 0
        (tree.findSolutionPath 0) [] [] with
    | none => simp [hloop] at hrun
    | some res =>
      simp only [hloop, Option.some.injEq] at hrun
      rw [← hrun]

theorem back_level_eq_length {p : List PredictionTreeNode} {back : PredictionTreeNode}
    (hback : p.getLast? = some back)
    (hdepth : ∀ j (h : j < p.length), (p[j]).level = (j : Int) + 1) :
    back.level = (p.length : Int) := by
  rw [List.getLast?_eq_getElem?] at hback
  obtain ⟨h, hget⟩ := List.getElem?_eq_some_iff.mp hback
  rw [← hget, hdepth (p.length - 1) h]
  omega

/-- C8: when solution path 0 is non-empty with last node `back`, the root carries no error
code, `back` is marked success and the path has as many nodes as the sequence has tokens,
plan_fb_rich publishes the joined grounded commands of the path as action sequence and
returns the empty list. -/
theorem plan_fb_rich_success_returns_empty (concat : List String → String → String)
    (fuel : Nat) (tree : PredictionTree) (seq : List String) (back : PredictionTreeNode)
    (hback : (tree.findSolutionPath 0).getLast? = some back)
    (herr : tree.root.feedbackMsg.error = "")
    (hsucc : back.success = true)
    (hlen : (tree.findSolutionPath 0).length = seq.length) :
    plan_fb_rich concat fuel tree seq =
      some ⟨[], some (concat ((tree.findSolutionPath 0).map (fun node => node.actionCommand))
        ";"), none⟩ := by
  have hne : tree.findSolutionPath 0 ≠ [] := by
    intro hnil
    rw [hnil] at hback
    simp at hback
  apply plan_fb_rich_of_fullSuccess
  · exact (rootFailure_eq_false_iff tree).mpr ⟨hne, herr⟩
  · rw [fullSuccess_of_back hback, hsucc, hlen]
    simp

/-- Witness for C8: the two-step plan that succeeds. -/
theorem plan_fb_rich_success_returns_empty_witness :
    plan_fb_rich joinWith 0 solvedTree ["get mug", "put mug table"] =
      some ⟨[], some "get mug;put mug table", none⟩ :=
  plan_fb_rich_success_returns_empty joinWith 0 solvedTree ["get mug", "put mug table"]
    putMugOk (by decide) (by decide) (by decide) (by decide)

/-- C9 (counterexample): a two-token sequence whose solution path 0 runs from the depth-1
node to a successful leaf at depth d = 2 is classified as a full success (the sequence is
published and the empty list returned) although d + 1 is not the sequence length. -/
theorem plan_fb_rich_success_depth_counterexample :
    solvedTree.root.level = 0 ∧
    solvedTree.findSolutionPath 0 = [getMugOk, putMugOk] ∧
    getMugOk.level = 1 ∧ putMugOk.level = 2 ∧ putMugOk.success = true ∧
    plan_fb_rich joinWith 0 solvedTree ["get mug", "put mug table"] =
      some ⟨[], some "get mug;put mug table", none⟩ ∧
    ¬ (putMugOk.level + 1 = ((["get mug", "put mug table"] : List String).length : Int)) := by
  decide

/-- C9 (amended): with the root at depth 0 carrying no error code and solution path 0
running from the depth-1 node to a leaf `back` at depth d (node j of the path at depth
j + 1), plan_fb_rich classifies the plan as a full success, that is publishes an action
sequence, if and only if `back` is marked success and d equals the sequence length. -/
theorem plan_fb_rich_full_success_iff (concat : List String → String → String)
    (fuel : Nat) (tree : PredictionTree) (seq : List String) (back : PredictionTreeNode)
    (herr : tree.root.feedbackMsg.error = "")
    (hback : (tree.findSolutionPath 0).getLast? = some back)
    (hdepth : ∀ j (h : j < (tree.findSolutionPath 0).length),
      ((tree.findSolutionPath 0)[j]).level = (j : Int) + 1) :
    (∃ r, plan_fb_rich concat fuel tree seq = some r ∧ r.actionSequence ≠ none) ↔
      (back.success = true ∧ back.level = (seq.length : Int)) := by
  have hne : tree.findSolutionPath 0 ≠ [] := by
    intro hnil
    rw [hnil] at hback
    simp at hback
  have hroot : rootFailure tree = false := (rootFailure_eq_false_iff tree).mpr ⟨hne, herr⟩
  have hlev := back_level_eq_length hback hdepth
  have hfs := @fullSuccess_of_back tree seq back hback
  constructor
  · rintro ⟨r, hrun, hseq⟩
    cases hfull : fullSuccess tree seq with
    | false =>
      exact absurd (actionSequence_eq_none_of_not_fullSuccess concat fuel tree seq r hfull hrun)
        hseq
    | true =>
      rw [hfs] at hfull
      simp only [Bool.and_eq_true, beq_iff_eq] at hfull
      refine ⟨hfull.1, ?_⟩
      rw [hlev, hfull.2]
  · rintro ⟨hsucc, hd⟩
    have hlen : (tree.findSolutionPath 0).length = seq.length := by
      rw [hlev] at hd
      exact_mod_cast hd
    have hfull : fullSuccess tree seq = true := by
      rw [hfs, hsucc, hlen]
      simp
    exact ⟨_, plan_fb_rich_of_fullSuccess concat fuel tree seq hroot hfull, by simp⟩

/-- Witness for C9 (amended): the two-step plan that succeeds, its leaf at depth 2. -/
theorem plan_fb_rich_full_success_iff_witness :
    (∃ r, plan_fb_rich joinWith 0 solvedTree ["get mug", "put mug table"] = some r ∧
      r.actionSequence ≠ none) ↔
      (putMugOk.success = true ∧
        putMugOk.level = ((["get mug", "put mug table"] : List String).length : Int)) :=
  plan_fb_rich_full_success_iff joinWith 0 solvedTree ["get mug", "put mug table"] putMugOk
    (by decide) (by decide)
    (by
      intro j h
      have hj : j = 0 ∨ j = 1 := by
        have h2 : (solvedTree.findSolutionPath 0).length = 2 := by decide
        omega
      rcases hj with rfl | rfl <;> rfl)

/-! ## The failure message of plan_fb and query_fb_nonblock -/

theorem fbLoopNonblock_eq_fbLoop (l : List ActionResult) :
    ∀ (i : Nat) (prev msg : String), fbLoopNonblock l i prev msg = fbLoop l i prev msg := by
  induction l with
  | nil => intro i prev msg; rfl
  | cons fb rest ih =>
    intro i prev msg
    unfold fbLoopNonblock fbLoop
    rw [ih, ih]

theorem fbMessageNonblock_eq (l : List ActionResult) : fbMessageNonblock l = fbMessage l :=
  fbLoopNonblock_eq_fbLoop l 0 "" "No solution found:\n"

theorem fbLine_ne_empty (fb : ActionResult) : fbLine fb ≠ "" := by
  intro h
  have hlen := congrArg String.length h
  simp only [fbLine, String.length_append] at hlen
  have h1 : (" Suggestion: " : String).length = 13 := by decide
  have h2 : ("" : String).length = 0 := by decide
  omega

theorem append_issue_ne (msg : String) (i : Nat) (fb : ActionResult) :
    msg ++ ("  Issue " ++ toString i ++ ": " ++ fbLine fb) ≠ msg := by
  intro h
  have hlen := congrArg String.length h
  simp only [String.length_append] at hlen
  have h1 : ("  Issue " : String).length = 8 := by decide
  omega

/-- One more record at the end of the list: the loop appends its line unless the line
equals the line of the record before it (the initial `fbLinePrev` when there is none). -/
theorem fbLoop_append_singleton (l : List ActionResult) (x : ActionResult) :
    ∀ (i : Nat) (prev msg : String),
      fbLoop (l ++ [x]) i prev msg =
        if fbLine x ≠ (l.getLast?.map fbLine).getD prev then
          fbLoop l i prev msg ++ ("  Issue " ++ toString (i + l.length) ++ ": " ++ fbLine x)
        else fbLoop l i prev msg := by
  induction l with
  | nil =>
    intro i prev msg
    simp [fbLoop]
  | cons y ys ih =>
    intro i prev msg
    have hlast : (((y :: ys).getLast?).map fbLine).getD prev =
        ((ys.getLast?).map fbLine).getD (fbLine y) := by
      rw [List.getLast?_cons]
      cases ys.getLast? <;> simp
    have hidx : i + (y :: ys).length = i + 1 + ys.length := by
      simp only [List.length_cons]; omega
    rw [hlast, hidx]
    simp only [List.cons_append]
    unfold fbLoop
    by_cases hy : fbLine y = prev
    · simp only [hy, ne_eq, not_true_eq_false, if_false]
      rw [ih]
    · simp only [hy, ne_eq, not_false_eq_true, if_true]
      rw [ih]

theorem getLast?_take_of_lt (l : List ActionResult) (i : Nat) (hi : i < l.length) :
    (l.take i).getLast? = if i = 0 then none else l[i - 1]? := by
  rw [List.getLast?_take]
  by_cases h0 : i = 0
  · simp [h0]
  · simp only [h0, if_false]
    have hlt : i - 1 < l.length := by omega
    rw [List.getElem?_eq_getElem hlt]
    rfl

/-- Iteration `i` of the message loop leaves the message unchanged exactly when `i > 0`
and the line of record `i` equals the line of record `i - 1`. -/
theorem fbMessage_take_succ_eq_iff (records : List ActionResult) (i : Nat)
    (hi : i < records.length) :
    fbMessage (records.take (i + 1)) = fbMessage (records.take i) ↔
      0 < i ∧ (records[i]?).map fbLine = (records[i - 1]?).map fbLine := by
  have hx : records[i]? = some records[i] := List.getElem?_eq_getElem hi
  rw [List.take_succ, hx]
  simp only [Option.toList_some, fbMessage]
  rw [fbLoop_append_singleton, getLast?_take_of_lt records i hi]
  by_cases h0 : i = 0
  · subst h0
    simp only [if_true, Option.map_none', Option.getD_none, ne_eq, fbLine_ne_empty,
      not_false_eq_true, Nat.lt_irrefl, false_and, iff_false]
    exact append_issue_ne _ _ _
  · have hlt : i - 1 < records.length := by omega
    have hp : records[i - 1]? = some records[i - 1] := List.getElem?_eq_getElem hlt
    simp only [h0, if_false, hp, Option.map_some', Option.getD_some, ne_eq, Option.some.injEq]
    have hpos : 0 < i := Nat.pos_of_ne_zero h0
    by_cases heq : fbLine records[i] = fbLine records[i - 1]
    · simp [heq, hpos]
    · simp only [heq, not_false_eq_true, if_true, and_false, iff_false]
      exact append_issue_ne _ _ _

theorem fbLine_eq_of_pair_eq {a b : ActionResult}
    (h : (a.reason, a.suggestion) = (b.reason, b.suggestion)) : fbLine a = fbLine b := by
  simp only [Prod.mk.injEq] at h
  simp [fbLine, h.1, h.2]

/-- C4 (counterexample): two records with different (reason, suggestion) pairs whose lines
read the same; the line of record 1 is suppressed in the message of plan_fb and of
query_fb_nonblock. -/
theorem fb_line_suppressed_counterexample :
    (ambiguousRecords[1]?).map (fun fb => (fb.reason, fb.suggestion)) ≠
      (ambiguousRecords[0]?).map (fun fb => (fb.reason, fb.suggestion)) ∧
    fbMessage (ambiguousRecords.take 2) = fbMessage (ambiguousRecords.take 1) ∧
    plan_fb ambiguousRecords =
      some "No solution found:\n  Issue 0: a Suggestion: b Suggestion: c\n" ∧
    query_fb_nonblock false ambiguousRecords =
      some "No solution found:\n  Issue 0: a Suggestion: b Suggestion: c\n" := by
  decide

/-- C4 (amended): in the message loops of plan_fb and query_fb_nonblock, iteration `i`
appends nothing (the line of record `i` is suppressed) if and only if `i > 0` and the
line text reason + " Suggestion: " + suggestion + newline of record `i` equals that of
record `i - 1`; records with identical (reason, suggestion) pairs are always suppressed. -/
theorem fb_line_suppressed_iff (records : List ActionResult) (i : Nat)
    (hi : i < records.length) :
    (fbMessage (records.take (i + 1)) = fbMessage (records.take i) ↔
      0 < i ∧ (records[i]?).map fbLine = (records[i - 1]?).map fbLine) ∧
    (fbMessageNonblock (records.take (i + 1)) = fbMessageNonblock (records.take i) ↔
      0 < i ∧ (records[i]?).map fbLine = (records[i - 1]?).map fbLine) ∧
    (0 < i →
      (records[i]?).map (fun fb => (fb.reason, fb.suggestion)) =
        (records[i - 1]?).map (fun fb => (fb.reason, fb.suggestion)) →
      fbMessage (records.take (i + 1)) = fbMessage (records.take i) ∧
      fbMessageNonblock (records.take (i + 1)) = fbMessageNonblock (records.take i)) := by
  have hmain := fbMessage_take_succ_eq_iff records i hi
  refine ⟨hmain, ?_, ?_⟩
  · rw [fbMessageNonblock_eq, fbMessageNonblock_eq]
    exact hmain
  · intro hpos hpair
    have hlt : i - 1 < records.length := by omega
    have hx : records[i]? = some records[i] := List.getElem?_eq_getElem hi
    have hp : records[i - 1]? = some records[i - 1] := List.getElem?_eq_getElem hlt
    have hline : (records[i]?).map fbLine = (records[i - 1]?).map fbLine := by
      rw [hx, hp] at hpair ⊢
      simp only [Option.map_some', Option.some.injEq] at hpair ⊢
      exact fbLine_eq_of_pair_eq hpair
    rw [fbMessageNonblock_eq, fbMessageNonblock_eq]
    exact ⟨hmain.mpr ⟨hpos, hline⟩, hmain.mpr ⟨hpos, hline⟩⟩

/-- Witness for C4 (amended): the second of two records with the same diagnostic. -/
theorem fb_line_suppressed_iff_witness :
    (fbMessage (repeatedRecords.take (1 + 1)) = fbMessage (repeatedRecords.take 1) ↔
      0 < 1 ∧ (repeatedRecords[1]?).map fbLine = (repeatedRecords[1 - 1]?).map fbLine) ∧
    (fbMessageNonblock (repeatedRecords.take (1 + 1)) =
        fbMessageNonblock (repeatedRecords.take 1) ↔
      0 < 1 ∧ (repeatedRecords[1]?).map fbLine = (repeatedRecords[1 - 1]?).map fbLine) ∧
    (0 < 1 →
      (repeatedRecords[1]?).map (fun fb => (fb.reason, fb.suggestion)) =
        (repeatedRecords[1 - 1]?).map (fun fb => (fb.reason, fb.suggestion)) →
      fbMessage (repeatedRecords.take (1 + 1)) = fbMessage (repeatedRecords.take 1) ∧
      fbMessageNonblock (repeatedRecords.take (1 + 1)) =
        fbMessageNonblock (repeatedRecords.take 1)) :=
  fb_line_suppressed_iff repeatedRecords 1 (by decide)

/-- The message loop appends, to the message built so far, the issue lines of a selection
of the remaining records, in order and labelled with their indices. -/
theorem fbLoop_eq_foldl (l : List ActionResult) :
    ∀ (i : Nat) (prev msg : String),
      ∃ sel : List (Nat × ActionResult), List.Sublist sel (l.enumFrom i) ∧
        fbLoop l i prev msg =
          (sel.map (fun p => "  Issue " ++ toString p.1 ++ ": " ++ p.2.reason ++
            " Suggestion: " ++ p.2.suggestion ++ "\n")).foldl (fun acc line => acc ++ line) msg := by
  induction l with
  | nil =>
    intro i prev msg
    exact ⟨[], List.Sublist.refl _, rfl⟩
  | cons fb rest ih =>
    intro i prev msg
    unfold fbLoop
    by_cases hfb : fbLine fb = prev
    · obtain ⟨sel, hsub, heq⟩ := ih (i + 1) (fbLine fb) msg
      refine ⟨sel, List.Sublist.cons _ hsub, ?_⟩
      simp only [hfb, ne_eq, not_true_eq_false, if_false]
      rw [← hfb]
      exact heq
    · obtain ⟨sel, hsub, heq⟩ := ih (i + 1) (fbLine fb)
        (msg ++ ("  Issue " ++ toString i ++ ": " ++ fbLine fb))
      refine ⟨(i, fb) :: sel, List.Sublist.cons₂ _ hsub, ?_⟩
      simp only [hfb, ne_eq, not_false_eq_true, if_true, List.map_cons, List.foldl_cons]
      rw [heq]
      simp [fbLine, String.append_assoc]

theorem foldl_append_eq (lines : List String) :
    ∀ msg : String, ∃ t : String,
      lines.foldl (fun acc line => acc ++ line) msg = msg ++ t := by
  induction lines with
  | nil => intro msg; exact ⟨"", by simp⟩
  | cons x xs ih =>
    intro msg
    obtain ⟨t, ht⟩ := ih (msg ++ x)
    exact ⟨x ++ t, by simp [ht, String.append_assoc]⟩

theorem header_append_ne_SUCCESS (t : String) : "No solution found:\n" ++ t ≠ "SUCCESS" := by
  intro h
  have hd := congrArg String.data h
  rw [String.data_append] at hd
  have h1 : ("No solution found:\n" : String).data = 'N' :: "o solution found:\n".data := rfl
  have h2 : ("SUCCESS" : String).data = 'S' :: "UCCESS".data := rfl
  rw [h1, h2] at hd
  simp only [List.cons_append, List.cons.injEq] at hd
  exact absurd hd.1 (by decide)

/-- C10: for a non-empty list of records plan_fb returns "SUCCESS" exactly when the first
record is a success; otherwise it returns the header "No solution found:" with a newline,
followed only by issue lines "  Issue i: reason Suggestion: suggestion" with a newline, of
a selection of the records, in the order of the records and labelled with their
indices. -/
theorem plan_fb_returns (records : List ActionResult) (hne : records ≠ []) :
    (plan_fb records = some "SUCCESS" ↔ (records.head hne).success = true) ∧
    ((records.head hne).success = false →
      ∃ sel : List (Nat × ActionResult), List.Sublist sel records.enum ∧
        plan_fb records = some
          ((sel.map (fun p => "  Issue " ++ toString p.1 ++ ": " ++ p.2.reason ++
            " Suggestion: " ++ p.2.suggestion ++ "\n")).foldl (fun acc line => acc ++ line)
            "No solution found:\n")) := by
  cases records with
  | nil => exact absurd rfl hne
  | cons first rest =>
    obtain ⟨sel, hsub, heq⟩ := fbLoop_eq_foldl (first :: rest) 0 "" "No solution found:\n"
    simp only [List.head_cons]
    constructor
    · constructor
      · intro h
        cases hs : first.success with
        | true => rfl
        | false =>
          simp only [plan_fb, hs, Bool.false_eq_true, if_false, Option.some.injEq, fbMessage]
            at h
          obtain ⟨t, ht⟩ := foldl_append_eq
            (sel.map (fun p => "  Issue " ++ toString p.1 ++ ": " ++ p.2.reason ++
              " Suggestion: " ++ p.2.suggestion ++ "\n")) "No solution found:\n"
          rw [heq, ht] at h
          exact absurd h (header_append_ne_SUCCESS t)
      · intro hs
        simp [plan_fb, hs]
    · intro hs
      refine ⟨sel, hsub, ?_⟩
      simp only [plan_fb, hs, Bool.false_eq_true, if_false, fbMessage]
      rw [heq]

/-- Witness for C10: three failure records, the second repeating the first. -/
theorem plan_fb_returns_witness :
    (plan_fb repeatedRecords = some "SUCCESS" ↔
      (repeatedRecords.head (by decide)).success = true) ∧
    ((repeatedRecords.head (by decide)).success = false →
      ∃ sel : List (Nat × ActionResult), List.Sublist sel repeatedRecords.enum ∧
        plan_fb repeatedRecords = some
          ((sel.map (fun p => "  Issue " ++ toString p.1 ++ ": " ++ p.2.reason ++
            " Suggestion: " ++ p.2.suggestion ++ "\n")).foldl (fun acc line => acc ++ line)
            "No solution found:\n")) :=
  plan_fb_returns repeatedRecords (by decide)

/-- The message of plan_fb for the three example records. -/
theorem plan_fb_repeatedRecords :
    plan_fb repeatedRecords = some ("No solution found:\n" ++
      "  Issue 0: cup is occluded Suggestion: remove the box\n" ++
      "  Issue 2: mug is held Suggestion: put it down\n") := by
  decide

/-! ## The boolean returned to simple callers -/

theorem fbMessage_eq_header_append (l : List ActionResult) :
    ∃ t : String, fbMessage l = "No solution found:\n" ++ t := by
  obtain ⟨sel, _, heq⟩ := fbLoop_eq_foldl l 0 "" "No solution found:\n"
  obtain ⟨t, ht⟩ := foldl_append_eq
    (sel.map (fun p => "  Issue " ++ toString p.1 ++ ": " ++ p.2.reason ++
      " Suggestion: " ++ p.2.suggestion ++ "\n")) "No solution found:\n"
  exact ⟨t, by rw [fbMessage, heq, ht]⟩

theorem plan_fb_cons_eq_SUCCESS_iff (first : ActionResult) (rest : List ActionResult) :
    plan_fb (first :: rest) = some "SUCCESS" ↔ first.success = true := by
  constructor
  · intro h
    cases hs : first.success with
    | true => rfl
    | false =>
      obtain ⟨t, ht⟩ := fbMessage_eq_header_append (first :: rest)
      simp only [plan_fb, hs, Bool.false_eq_true, if_false, Option.some.injEq] at h
      rw [ht] at h
      exact absurd h (header_append_ne_SUCCESS t)
  · intro hs
    simp [plan_fb, hs]

/-- C11: for a non-empty list of records `first :: rest`, the boolean returned by plan and
by executeBlocking is success() of the first record; it is true exactly when plan_fb
returns "SUCCESS" for the same records; and it is the same for every other tail of
records after the first. -/
theorem plan_returns_first_success (first : ActionResult) (rest : List ActionResult) :
    plan (first :: rest) = some first.success ∧
    executeBlocking (first :: rest) = some first.success ∧
    (plan (first :: rest) = some true ↔ plan_fb (first :: rest) = some "SUCCESS") ∧
    (executeBlocking (first :: rest) = some true ↔
      plan_fb (first :: rest) = some "SUCCESS") ∧
    (∀ rest2 : List ActionResult,
      plan (first :: rest2) = plan (first :: rest) ∧
      executeBlocking (first :: rest2) = executeBlocking (first :: rest)) := by
  have hiff := plan_fb_cons_eq_SUCCESS_iff first rest
  refine ⟨rfl, rfl, ?_, ?_, fun _ => ⟨rfl, rfl⟩⟩
  · rw [hiff]
    simp [plan]
  · rw [hiff]
    simp [executeBlocking]

/-- The three entry points on the example records, whose first record is a failure. -/
theorem plan_repeatedRecords :
    plan repeatedRecords = some false ∧ executeBlocking repeatedRecords = some false ∧
    plan (slowSuccess :: repeatedRecords) = some true ∧
    plan_fb (slowSuccess :: repeatedRecords) = some "SUCCESS" := by
  decide

/-! ## The result record: clear, toString, toStringVec -/

/-- C12 (the code at the failing input): clear() empties the error code, the reason, the
suggestion and the developer detail but leaves the grounded action command as it was; the
cleared example record still carries "get cup". -/
theorem clear_leaves_actionCommand :
    (∀ r : ActionResult, r.clear = ⟨"", r.actionCommand, "", "", ""⟩) ∧
    fullRecord.clear = ⟨"", "get cup", "", "", ""⟩ ∧
    fullRecord.clear.actionCommand ≠ "" := by
  refine ⟨fun r => rfl, by decide, by decide⟩

/-- C13: for a record whose success() holds, toString() is "ACTION: '" + command +
"' : SUCCESS"; every other successful record with the same command renders to the same
string, whatever its error code, reason, suggestion and developer detail. -/
theorem toString_of_success (r : ActionResult) (h : r.success = true) :
    r.toString = "ACTION: '" ++ r.actionCommand ++ "' : SUCCESS" ∧
    ∀ r2 : ActionResult, r2.success = true → r2.actionCommand = r.actionCommand →
      r2.toString = r.toString := by
  constructor
  · simp [ActionResult.toString, h]
  · intro r2 h2 hcmd
    simp [ActionResult.toString, h, h2, hcmd]

/-- Witness for C13: the code "SUCCESSFUL_SLOW" with text in every field, compared with
the plain success record of the same command. -/
theorem toString_of_success_witness :
    slowSuccess.toString = "ACTION: '" ++ slowSuccess.actionCommand ++ "' : SUCCESS" ∧
    (okStep "get cup").toString = slowSuccess.toString :=
  ⟨(toString_of_success slowSuccess (by decide)).1,
   (toString_of_success slowSuccess (by decide)).2 (okStep "get cup") (by decide)
     (by decide)⟩

theorem getLast?_data_append_quote (s : String) :
    (s ++ "'").data.getLast? = some (Char.ofNat 39) := by
  rw [String.data_append]
  have h : ("'" : String).data = [Char.ofNat 39] := by decide
  rw [h]
  simp

theorem getLast?_data_append_SUCCESS (s : String) :
    (s ++ "' : SUCCESS").data.getLast? = some 'S' := by
  rw [String.data_append]
  have h : ("' : SUCCESS" : String).data = "' : SUCCES".data ++ ['S'] := by decide
  rw [h, ← List.append_assoc]
  simp

/-- C14: for a record whose success() does not hold, toString() is the composite of the
command, the error code, the reason, the suggestion and the developer detail, in that
order; it differs from the rendering of every successful record. -/
theorem toString_of_failure (r : ActionResult) (h : r.success = false) :
    r.toString = "ACTION: '" ++ r.actionCommand ++ "' ERROR: '" ++ r.error ++
      "' REASON: '" ++ r.reason ++ "' SUGGESTION: '" ++ r.suggestion ++
      "' DEVELOPER: '" ++ r.developer ++ "'" ∧
    ∀ r2 : ActionResult, r2.success = true → r.toString ≠ r2.toString := by
  have hfail : r.toString = "ACTION: '" ++ r.actionCommand ++ "' ERROR: '" ++ r.error ++
      "' REASON: '" ++ r.reason ++ "' SUGGESTION: '" ++ r.suggestion ++
      "' DEVELOPER: '" ++ r.developer ++ "'" := by
    simp [ActionResult.toString, h]
  refine ⟨hfail, ?_⟩
  intro r2 h2 heq
  have hsucc : r2.toString = "ACTION: '" ++ r2.actionCommand ++ "' : SUCCESS" := by
    simp [ActionResult.toString, h2]
  rw [hfail, hsucc] at heq
  have h1 := getLast?_data_append_quote ("ACTION: '" ++ r.actionCommand ++ "' ERROR: '" ++
    r.error ++ "' REASON: '" ++ r.reason ++ "' SUGGESTION: '" ++ r.suggestion ++
    "' DEVELOPER: '" ++ r.developer)
  have h2 := getLast?_data_append_SUCCESS ("ACTION: '" ++ r2.actionCommand)
  rw [heq, h2] at h1
  exact absurd (Option.some.inj h1) (by decide)

/-- Witness for C14: the failed example record against the successful one. -/
theorem toString_of_failure_witness :
    fullRecord.toString = "ACTION: 'get cup' ERROR: 'ERROR' REASON: 'cup is occluded'" ++
      " SUGGESTION: 'remove the box' DEVELOPER: 'collision at step 3'" ∧
    fullRecord.toString ≠ slowSuccess.toString :=
  ⟨(toString_of_failure fullRecord (by decide)).1.trans (by decide),
   (toString_of_failure fullRecord (by decide)).2 slowSuccess (by decide)⟩

/-- C15: toStringVec() is the list of exactly five strings error, command, reason,
suggestion, developer, in this order. -/
theorem toStringVec_eq (r : ActionResult) :
    r.toStringVec = [r.error, r.actionCommand, r.reason, r.suggestion, r.developer] ∧
    r.toStringVec.length = 5 := by
  constructor <;> rfl

/-! ## isReachable -/

theorem reachLoop_eq_true_iff {Agent Entity Position : Type}
    (q : ReachQuery Agent Entity Position) (agent : Agent) (ntts : List Entity) :
    reachLoop q agent ntts = true ↔
      ∃ ntt ∈ ntts, q.canReachTo agent (q.bodyOrigin ntt) = true := by
  induction ntts with
  | nil => simp [reachLoop]
  | cons ntt rest ih =>
    unfold reachLoop
    by_cases h : q.canReachTo agent (q.bodyOrigin ntt) = true
    · simp [h]
    · simp [h, ih]

/-- C16: isReachable(agentName, objectName) is true if and only if the scene has an agent
of that name and some affordance entity matching the object name has a body position that
this agent can reach; it is false when the agent is unknown and when no entity matches. -/
theorem isReachable_iff {Agent Entity Position : Type}
    (q : ReachQuery Agent Entity Position) (agentName objectName : String) :
    (isReachable q agentName objectName = true ↔
      ∃ agent, q.getAgent agentName = some agent ∧
        ∃ ntt ∈ q.getAffordanceEntities objectName,
          q.canReachTo agent (q.bodyOrigin ntt) = true) ∧
    (q.getAgent agentName = none → isReachable q agentName objectName = false) ∧
    (q.getAffordanceEntities objectName = [] →
      isReachable q agentName objectName = false) := by
  refine ⟨?_, ?_, ?_⟩
  · unfold isReachable
    cases hagent : q.getAgent agentName with
    | none => simp
    | some agent =>
      cases hntts : q.getAffordanceEntities objectName with
      | nil => simp
      | cons ntt rest =>
        simp only [List.isEmpty_cons, Bool.false_eq_true, if_false, Option.some.injEq,
          exists_eq_left']
        exact reachLoop_eq_true_iff q agent (ntt :: rest)
  · intro hnone
    simp [isReachable, hnone]
  · intro hnil
    unfold isReachable
    cases q.getAgent agentName with
    | none => rfl
    | some agent => simp [hnil]

/-- Witness for C16: an unknown agent asking for an object that no entity matches. -/
theorem isReachable_iff_witness :
    (isReachable tableScene "human" "spoon" = true ↔
      ∃ agent, tableScene.getAgent "human" = some agent ∧
        ∃ ntt ∈ tableScene.getAffordanceEntities "spoon",
          tableScene.canReachTo agent (tableScene.bodyOrigin ntt) = true) ∧
    tableScene.getAgent "human" = none ∧
    tableScene.getAffordanceEntities "spoon" = [] ∧
    isReachable tableScene "human" "spoon" = false ∧
    isReachable tableScene "human" "spoon" = false :=
  ⟨(isReachable_iff tableScene "human" "spoon").1, by decide, by decide,
   (isReachable_iff tableScene "human" "spoon").2.1 (by decide),
   (isReachable_iff tableScene "human" "spoon").2.2 (by decide)⟩

/-- The example scene: the robot reaches the second of the two cups; an unknown agent
and an unknown object give false. -/
theorem isReachable_tableScene :
    isReachable tableScene "robot" "cup" = true ∧
    isReachable tableScene "human" "cup" = false ∧
    isReachable tableScene "robot" "spoon" = false := by
  decide

/-! ## The polled query -/

theorem header_append_ne_empty (t : String) : "No solution found:\n" ++ t ≠ "" := by
  intro h
  have hlen := congrArg String.length h
  simp only [String.length_append] at hlen
  have h1 : ("No solution found:\n" : String).length = 19 := by decide
  have h2 : ("" : String).length = 0 := by decide
  omega

/-- C17: query_fb_nonblock returns the empty string exactly when the processing flag is
set; with the flag cleared and a non-empty list of records `first :: rest` it returns
"SUCCESS" or a message that starts with the header "No solution found:", never the empty
string. -/
theorem query_fb_nonblock_empty_iff (isProcessingAction : Bool) (first : ActionResult)
    (rest : List ActionResult) :
    (query_fb_nonblock isProcessingAction (first :: rest) = some "" ↔
      isProcessingAction = true) ∧
    query_fb_nonblock true (first :: rest) = some "" ∧
    query_fb_nonblock false (first :: rest) ≠ some "" ∧
    (query_fb_nonblock false (first :: rest) = some "SUCCESS" ∨
      ∃ t : String,
        query_fb_nonblock false (first :: rest) = some ("No solution found:\n" ++ t)) := by
  obtain ⟨t, ht⟩ := fbMessage_eq_header_append (first :: rest)
  have hfalse : query_fb_nonblock false (first :: rest) = some "SUCCESS" ∨
      query_fb_nonblock false (first :: rest) = some ("No solution found:\n" ++ t) := by
    cases hs : first.success with
    | true => left; simp [query_fb_nonblock, hs]
    | false =>
      right
      simp only [query_fb_nonblock, hs, Bool.false_eq_true, if_false]
      rw [fbMessageNonblock_eq, ht]
  have hne : query_fb_nonblock false (first :: rest) ≠ some "" := by
    rcases hfalse with h | h
    · rw [h]; decide
    · rw [h]
      intro hcontra
      exact header_append_ne_empty t (Option.some.inj hcontra)
  refine ⟨?_, rfl, hne, ?_⟩
  · cases isProcessingAction with
    | true => simp [query_fb_nonblock]
    | false => simpa using hne
  · rcases hfalse with h | h
    · exact Or.inl h
    · exact Or.inr ⟨t, h⟩

/-- The polled query on the example records, before and after the flag is cleared. -/
theorem query_fb_nonblock_repeatedRecords :
    query_fb_nonblock true repeatedRecords = some "" ∧
    query_fb_nonblock false repeatedRecords = some ("No solution found:\n" ++
      "  Issue 0: cup is occluded Suggestion: remove the box\n" ++
      "  Issue 2: mug is held Suggestion: put it down\n") ∧
    query_fb_nonblock false (slowSuccess :: repeatedRecords) = some "SUCCESS" := by
  decide

/-! ## The labels of the issue lines -/

theorem issueLine_eq (i : Nat) (fb : ActionResult) :
    "  Issue " ++ toString i ++ ": " ++ fbLine fb = issueLine (i, fb) := by
  simp [issueLine, fbLine, String.append_assoc]

theorem filter_startsRun_append (l : List ActionResult) (x : ActionResult) :
    l.enum.filter (startsRun (l ++ [x])) = l.enum.filter (startsRun l) := by
  apply List.filter_congr
  intro p hp
  have hlt : p.1 < l.length := List.fst_lt_of_mem_enum hp
  have hget : (l ++ [x])[p.1 - 1]? = l[p.1 - 1]? :=
    List.getElem?_append_left (by omega)
  simp only [startsRun, hget]

theorem startsRun_last (l : List ActionResult) (x : ActionResult) :
    startsRun (l ++ [x]) (l.length, x) =
      decide (fbLine x ≠ (l.getLast?.map fbLine).getD "") := by
  cases hl : l.getLast? with
  | none =>
    have hnil : l = [] := List.getLast?_eq_none_iff.mp hl
    subst hnil
    simp [startsRun, fbLine_ne_empty]
  | some y =>
    have hne : l ≠ [] := by
      intro hnil
      rw [hnil] at hl
      simp at hl
    have hpos : 0 < l.length := List.length_pos.mpr hne
    have hget : (l ++ [x])[l.length - 1]? = some y := by
      rw [List.getElem?_append_left (by omega), ← List.getLast?_eq_getElem?, hl]
    have h0 : ¬ l.length = 0 := by omega
    simp only [startsRun, hget, h0, decide_False, Bool.false_or, Option.map_some',
      Option.getD_some, ne_eq, Option.some.injEq]
    by_cases h : fbLine x = fbLine y
    · simp [h]
    · have h2 : ¬ fbLine y = fbLine x := fun e => h e.symm
      simp [h, h2]

theorem runStarts_append_singleton (l : List ActionResult) (x : ActionResult) :
    runStarts (l ++ [x]) =
      runStarts l ++
        (if fbLine x ≠ (l.getLast?.map fbLine).getD "" then [(l.length, x)] else []) := by
  unfold runStarts
  rw [List.enum_append, List.filter_append, filter_startsRun_append,
    List.enumFrom_singleton]
  congr 1
  simp only [List.filter_cons, List.filter_nil, startsRun_last]
  by_cases h : fbLine x = (l.getLast?.map fbLine).getD ""
  · simp [h]
  · simp [h]

/-- The message of plan_fb is the header followed by the issue lines of the first records
of the runs of identical lines, each labelled with its index in the records. -/
theorem fbMessage_eq_runStarts (records : List ActionResult) :
    fbMessage records =
      ((runStarts records).map issueLine).foldl (fun acc line => acc ++ line)
        "No solution found:\n" := by
  induction records using List.reverseRecOn with
  | nil => rfl
  | append_singleton l x ih =>
    have hsnoc := fbLoop_append_singleton l x 0 "" "No solution found:\n"
    rw [fbMessage, hsnoc, runStarts_append_singleton]
    rw [fbMessage] at ih
    by_cases h : fbLine x = (l.getLast?.map fbLine).getD ""
    · simp only [h, ne_eq, not_true_eq_false, if_false, List.append_nil]
      exact ih
    · simp only [h, ne_eq, not_false_eq_true, if_true, List.map_append, List.map_cons,
        List.map_nil, List.foldl_append, List.foldl_cons, List.foldl_nil, Nat.zero_add]
      rw [ih, issueLine_eq]

theorem map_fbLine_of_map_diagnostic (o : Option ActionResult) (r : ActionResult)
    (h : o.map diagnostic = some (diagnostic r)) : o.map fbLine = some (fbLine r) := by
  cases o with
  | none => simp at h
  | some y =>
    simp only [Option.map_some', Option.some.injEq] at h ⊢
    exact fbLine_eq_of_pair_eq h

theorem startsRun_diagnostic {records : List ActionResult} {p : Nat × ActionResult}
    (h : startsRun records p = true) :
    p.1 = 0 ∨ (records[p.1 - 1]?).map diagnostic ≠ some (diagnostic p.2) := by
  simp only [startsRun, Bool.or_eq_true, decide_eq_true_eq] at h
  rcases h with h | h
  · exact Or.inl h
  · exact Or.inr (fun hd => h (map_fbLine_of_map_diagnostic _ _ hd))

/-- C19: the failure message of plan_fb and of query_fb_nonblock is the header followed by
the issue lines of the first records of the runs of identical lines, each labelled with
its index in the raw record list; the emitted lines follow the order of the records, their
labels increase strictly, every emitted line belongs to the first record of a run of
identical (reason, suggestion) pairs, and a record that repeats the pair of the record
before it gets no line. -/
theorem fb_issue_labels (records : List ActionResult) :
    fbMessage records =
      ((runStarts records).map issueLine).foldl (fun acc line => acc ++ line)
        "No solution found:\n" ∧
    fbMessageNonblock records =
      ((runStarts records).map issueLine).foldl (fun acc line => acc ++ line)
        "No solution found:\n" ∧
    List.Sublist (runStarts records) records.enum ∧
    ((runStarts records).map Prod.fst).Pairwise (fun a b => a < b) ∧
    (∀ p ∈ runStarts records, records[p.1]? = some p.2 ∧
      (p.1 = 0 ∨ (records[p.1 - 1]?).map diagnostic ≠ some (diagnostic p.2))) ∧
    (∀ (i : Nat) (r : ActionResult), records[i]? = some r → 0 < i →
      (records[i - 1]?).map diagnostic = some (diagnostic r) →
      (i, r) ∉ runStarts records) := by
  have hmsg := fbMessage_eq_runStarts records
  have hsub : List.Sublist (runStarts records) records.enum := List.filter_sublist _
  refine ⟨hmsg, ?_, hsub, ?_, ?_, ?_⟩
  · rw [fbMessageNonblock_eq]
    exact hmsg
  · have hrange := List.pairwise_lt_range records.length
    rw [← List.enum_map_fst records] at hrange
    exact hrange.sublist (hsub.map Prod.fst)
  · intro p hp
    have hmem := List.mem_filter.mp hp
    exact ⟨List.mem_enum_iff_getElem?.mp hmem.1, startsRun_diagnostic hmem.2⟩
  · intro i r _ hpos hpair hmem
    have hstart := (List.mem_filter.mp hmem).2
    rcases startsRun_diagnostic hstart with h0 | hne
    · simp only at h0
      omega
    · exact hne hpair

/-- Witness for C19: three records, the second repeating the diagnostic of the first; the
lines are labelled 0 and 2 and the second record gets no line. -/
theorem fb_issue_labels_witness :
    runStarts repeatedRecords =
      [(0, failedStep "get cup" "cup is occluded" "remove the box"),
       (2, failedStep "get mug" "mug is held" "put it down")] ∧
    fbMessage repeatedRecords =
      ((runStarts repeatedRecords).map issueLine).foldl (fun acc line => acc ++ line)
        "No solution found:\n" ∧
    ((runStarts repeatedRecords).map Prod.fst).Pairwise (fun a b => a < b) ∧
    (1, failedStep "get cup left" "cup is occluded" "remove the box") ∉
      runStarts repeatedRecords :=
  ⟨by decide,
   (fb_issue_labels repeatedRecords).1,
   (fb_issue_labels repeatedRecords).2.2.2.1,
   (fb_issue_labels repeatedRecords).2.2.2.2.2 1
     (failedStep "get cup left" "cup is occluded" "remove the box") (by decide) (by decide)
     (by decide)⟩

/-! ## The action-sequence planners -/

/-- C21: given a tree, `_planActionSequenceThreaded` clears the processing flag and the
stack of completed actions and publishes nothing when the solution path strings are empty;
otherwise it publishes the grounded sequence (each step followed by ";") and leaves the
processing flag and the stack as they were. -/
theorem planActionSequenceThreaded_effects
    (findSolutionPathAsStrings : PredictionTree → List String)
    (ex : EcsState) (t : PredictionTree) :
    (findSolutionPathAsStrings t = [] →
      _planActionSequenceThreaded findSolutionPathAsStrings ex (some t) =
        some ⟨false, [], ex.actionSequenceEvents⟩) ∧
    (findSolutionPathAsStrings t ≠ [] →
      _planActionSequenceThreaded findSolutionPathAsStrings ex (some t) =
        some ⟨ex.processingAction, ex.completedActionStack,
          ex.actionSequenceEvents ++ [newCmdOf (findSolutionPathAsStrings t)]⟩) := by
  constructor
  · intro hres
    simp [_planActionSequenceThreaded, hres]
  · intro hres
    have hne : (findSolutionPathAsStrings t).isEmpty = false := by
      cases h : findSolutionPathAsStrings t with
      | nil => exact absurd h hres
      | cons a as => rfl
    simp [_planActionSequenceThreaded, hne]

/-- Witness for C21: the example tree whose branches all fail (no solution) and the
example tree of the two-step plan (solution found), both started with the flag set. -/
theorem planActionSequenceThreaded_effects_witness :
    _planActionSequenceThreaded commandsOfSolution busyState (some mixedDepthTree) =
      some ⟨false, [], []⟩ ∧
    _planActionSequenceThreaded commandsOfSolution busyState (some solvedTree) =
      some ⟨true, ["get mug", "put mug table"], ["get mug;put mug table;"]⟩ :=
  ⟨(planActionSequenceThreaded_effects commandsOfSolution busyState mixedDepthTree).1
      (by decide),
   ((planActionSequenceThreaded_effects commandsOfSolution busyState solvedTree).2
      (by decide)).trans (by decide)⟩

/-- C22: predictActionSequence returns the empty list for a null tree and otherwise
exactly what the tree query findSolutionPathAsStrings returns for the tree. -/
theorem predictActionSequence_eq
    (findSolutionPathAsStrings : PredictionTree → List String) :
    predictActionSequence findSolutionPathAsStrings none = [] ∧
    ∀ t : PredictionTree,
      predictActionSequence findSolutionPathAsStrings (some t) =
        findSolutionPathAsStrings t :=
  ⟨rfl, fun _ => rfl⟩

/-- The example trees under predictActionSequence: a plan, no plan, no tree. -/
theorem predictActionSequence_examples :
    predictActionSequence commandsOfSolution (some solvedTree) =
      ["get mug", "put mug table"] ∧
    predictActionSequence commandsOfSolution (some mixedDepthTree) = [] ∧
    predictActionSequence commandsOfSolution none = [] := by
  decide

/-- C23 (the code at the failing input): for a null tree planActionSequence and
`_planActionSequenceThreaded` call findSolutionPathAsStrings on the null pointer; no
outcome is defined, neither the answer false nor a cleared processing flag, while
predictActionSequence checks the pointer and returns the empty list. -/
theorem planActionSequence_null_tree
    (findSolutionPathAsStrings : PredictionTree → List String) (ex : EcsState)
    (blocking : Bool) (lastActionResult : List ActionResult) :
    planActionSequence findSolutionPathAsStrings none blocking lastActionResult = none ∧
    planActionSequence findSolutionPathAsStrings none blocking lastActionResult ≠
      some (false, none) ∧
    _planActionSequenceThreaded findSolutionPathAsStrings ex none = none ∧
    predictActionSequence findSolutionPathAsStrings none = [] := by
  refine ⟨rfl, ?_, rfl, rfl⟩
  simp [planActionSequence]

/-! ## plan_fb_rich: termination of the enumeration and non-empty reports -/

/-- With too little fuel the loop does not return: when the paths of the indices `idx` to
`idx + fuel` are all non-empty, the fuel is used up before an empty path is met. -/
theorem failureLoop_out_of_fuel (tree : PredictionTree) (d : Int) (fuel : Nat) :
    ∀ (idx : Nat) (ars : List ActionResult) (srs : List SearchResult),
      (∀ i, idx ≤ i → i ≤ idx + fuel → tree.findSolutionPath i ≠ []) →
      failureLoop tree d fuel idx (tree.findSolutionPath idx) ars srs = none := by
  induction fuel with
  | zero =>
    intro idx ars srs hne
    obtain ⟨back, hback⟩ := getLast?_of_ne_nil (hne idx (Nat.le_refl _) (by omega))
    unfold failureLoop
    simp [hback]
  | succ f ih =>
    intro idx ars srs hne
    obtain ⟨back, hback⟩ := getLast?_of_ne_nil (hne idx (Nat.le_refl _) (by omega))
    have hrec := fun ars srs => ih (idx + 1) ars srs
      (fun i h1 h2 => hne i (by omega) (by omega))
    unfold failureLoop
    rw [hback]
    by_cases hlt : back.level < d
    · simp only [hlt, if_true]
      exact hrec ars srs
    · simp only [hlt, if_false]
      exact hrec _ _

theorem retainedPaths_ne_nil {tree : PredictionTree} {d : Int} {idxs : List Nat} {i : Nat}
    {back : PredictionTreeNode} (hi : i ∈ idxs)
    (hback : (tree.findSolutionPath i).getLast? = some back) (hlev : ¬ back.level < d) :
    retainedPaths tree d idxs ≠ [] := by
  have hmem : (tree.findSolutionPath i, back) ∈ retainedPaths tree d idxs := by
    simp only [retainedPaths, List.mem_filterMap]
    exact ⟨i, hi, by simp [retainedLeaf, hback, hlev]⟩
  exact List.ne_nil_of_mem hmem

/-- C24: when the first `k` paths are non-empty, path `k` is empty and some enumerated path
ends at a node of the deepest level, plan_fb_rich returns; in the no-plan branch the
returned list is non-empty, so the empty list is returned only for a full success. -/
theorem plan_fb_rich_nonempty_report (concat : List String → String → String)
    (fuel : Nat) (tree : PredictionTree) (seq : List String) (k : Nat)
    (hne : ∀ i, i < k → tree.findSolutionPath i ≠ [])
    (hend : tree.findSolutionPath k = [])
    (hmax : ∃ i back, i < k ∧ (tree.findSolutionPath i).getLast? = some back ∧
      back.level = deepestLevel tree.getLeafNodes)
    (hfuel : k ≤ fuel) :
    ∃ r, plan_fb_rich concat fuel tree seq = some r ∧
      (rootFailure tree = false → fullSuccess tree seq = false → r.returned ≠ []) ∧
      (r.returned = [] → rootFailure tree = false ∧ fullSuccess tree seq = true) := by
  cases hroot : rootFailure tree with
  | true =>
    refine ⟨_, plan_fb_rich_rootFailure concat fuel tree seq hroot, ?_, ?_⟩
    · intro h; exact absurd h (by simp)
    · intro h; simp at h
  | false =>
    cases hfull : fullSuccess tree seq with
    | true =>
      refine ⟨_, plan_fb_rich_of_fullSuccess concat fuel tree seq hroot hfull, ?_, ?_⟩
      · intro _ h; exact absurd h (by simp)
      · intro _; exact ⟨rfl, rfl⟩
    | false =>
      obtain ⟨i, back, hi, hback, hlev⟩ := hmax
      have hret : retainedPaths tree (deepestLevel tree.getLeafNodes) (List.range k) ≠ [] :=
        retainedPaths_ne_nil (List.mem_range.mpr hi) hback (by omega)
      have hmap : (retainedPaths tree (deepestLevel tree.getLeafNodes) (List.range k)).map
          tripleOf ≠ [] := by
        simpa using hret
      refine ⟨_, plan_fb_rich_noPlan concat fuel tree seq k hroot hfull hne hend hfuel,
        ?_, ?_⟩
      · intro _ _; exact hmap
      · intro h; exact absurd h hmap

/-- Witness for C24: the example tree with branches failing at depth 1 and at depth 3;
the path of index 1 ends at the deepest level 3. -/
theorem plan_fb_rich_nonempty_report_witness :
    ∃ r, plan_fb_rich joinWith 2 mixedDepthTree ["get mug", "put mug table", "pour mug glass"]
        = some r ∧
      (rootFailure mixedDepthTree = false →
        fullSuccess mixedDepthTree ["get mug", "put mug table", "pour mug glass"] = false →
        r.returned ≠ []) ∧
      (r.returned = [] → rootFailure mixedDepthTree = false ∧
        fullSuccess mixedDepthTree ["get mug", "put mug table", "pour mug glass"] = true) :=
  plan_fb_rich_nonempty_report joinWith 2 mixedDepthTree
    ["get mug", "put mug table", "pour mug glass"] 2 (by decide) (by decide)
    ⟨1, pourFails, by decide, by decide, by decide⟩ (by decide)

/-- C27: when findSolutionPath returns an empty path for some index, there is a first such
index `k`; the failure loop started as in plan_fb_rich returns after `k` iterations (`k`
units of fuel suffice, fewer do not), skipped paths included, and what it reports are the
records and triples of retained paths of the indices below `k` only. -/
theorem failureLoop_visits_first_k (tree : PredictionTree) (d : Int)
    (h : ∃ n, tree.findSolutionPath n = []) :
    ∃ k, tree.findSolutionPath k = [] ∧
      (∀ i, i < k → tree.findSolutionPath i ≠ []) ∧
      (∀ fuel, k ≤ fuel →
        failureLoop tree d fuel 0 (tree.findSolutionPath 0) [] [] =
          some ((retainedPaths tree d (List.range k)).map (fun pb => pb.2.feedbackMsg),
                (retainedPaths tree d (List.range k)).map tripleOf)) ∧
      (∀ fuel, fuel < k →
        failureLoop tree d fuel 0 (tree.findSolutionPath 0) [] [] = none) ∧
      (∀ pb ∈ retainedPaths tree d (List.range k),
        ∃ i, i < k ∧ pb.1 = tree.findSolutionPath i) := by
  classical
  refine ⟨Nat.find h, Nat.find_spec h, fun i hi => Nat.find_min h hi, ?_, ?_, ?_⟩
  · intro fuel hfuel
    have hrun := failureLoop_run tree d (Nat.find h) 0 fuel [] []
      (fun i _ h2 => Nat.find_min h (by omega))
      (by rw [Nat.zero_add]; exact Nat.find_spec h) hfuel
    simpa [List.range_eq_range'] using hrun
  · intro fuel hfuel
    exact failureLoop_out_of_fuel tree d fuel 0 [] []
      (fun i _ h2 => Nat.find_min h (by omega))
  · intro pb hpb
    obtain ⟨i, hi, hpath, _, _⟩ := mem_retainedPaths hpb
    exact ⟨i, List.mem_range.mp hi, hpath⟩

/-- Witness for C27: the example tree with two non-empty paths; the loop needs two
iterations. -/
theorem failureLoop_visits_first_k_witness :
    ∃ k, mixedDepthTree.findSolutionPath k = [] ∧
      (∀ i, i < k → mixedDepthTree.findSolutionPath i ≠ []) ∧
      (∀ fuel, k ≤ fuel →
        failureLoop mixedDepthTree 3 fuel 0 (mixedDepthTree.findSolutionPath 0) [] [] =
          some ((retainedPaths mixedDepthTree 3 (List.range k)).map
                  (fun pb => pb.2.feedbackMsg),
                (retainedPaths mixedDepthTree 3 (List.range k)).map tripleOf)) ∧
      (∀ fuel, fuel < k →
        failureLoop mixedDepthTree 3 fuel 0 (mixedDepthTree.findSolutionPath 0) [] [] =
          none) ∧
      (∀ pb ∈ retainedPaths mixedDepthTree 3 (List.range k),
        ∃ i, i < k ∧ pb.1 = mixedDepthTree.findSolutionPath i) :=
  failureLoop_visits_first_k mixedDepthTree 3 ⟨2, by decide⟩

/-- The loop on the example tree: no result with one unit of fuel, the depth-3 failure
with two. -/
theorem failureLoop_mixedDepthTree :
    failureLoop mixedDepthTree 3 1 0 (mixedDepthTree.findSolutionPath 0) [] [] = none ∧
    failureLoop mixedDepthTree 3 2 0 (mixedDepthTree.findSolutionPath 0) [] [] =
      some ([pourFails.feedbackMsg],
            [(["get mug", "put mug table", "pour mug glass"], "glass is out of reach",
              "move the glass")]) := by
  decide

/-! ## The two message builders -/

/-- C25: with the processing flag cleared query_fb_nonblock returns the same string as
plan_fb for the same records (for the empty vector neither is defined), and the two
failure-message loops build the same message. -/
theorem query_fb_nonblock_eq_plan_fb (lastActionResult : List ActionResult) :
    query_fb_nonblock false lastActionResult = plan_fb lastActionResult ∧
    fbMessageNonblock lastActionResult = fbMessage lastActionResult := by
  refine ⟨?_, fbMessageNonblock_eq lastActionResult⟩
  cases lastActionResult with
  | nil => rfl
  | cons first rest =>
    simp only [query_fb_nonblock, plan_fb, Bool.false_eq_true, if_false]
    rw [fbMessageNonblock_eq]

theorem fbMessage_cons_eq (first : ActionResult) (rest : List ActionResult) :
    ∃ t : String, fbMessage (first :: rest) =
      "No solution found:\n" ++ "  Issue 0: " ++ first.reason ++ " Suggestion: " ++
        first.suggestion ++ "\n" ++ t := by
  have hne : fbLine first ≠ "" := fbLine_ne_empty first
  obtain ⟨sel, _, heq⟩ := fbLoop_eq_foldl rest 1 (fbLine first)
    ("No solution found:\n" ++ ("  Issue " ++ toString 0 ++ ": " ++ fbLine first))
  obtain ⟨t, ht⟩ := foldl_append_eq
    (sel.map (fun p => "  Issue " ++ toString p.1 ++ ": " ++ p.2.reason ++
      " Suggestion: " ++ p.2.suggestion ++ "\n"))
    ("No solution found:\n" ++ ("  Issue " ++ toString 0 ++ ": " ++ fbLine first))
  have hlit : "No solution found:\n" ++ ("  Issue " ++ toString 0 ++ ": " ++ fbLine first) =
      "No solution found:\n" ++ "  Issue 0: " ++ first.reason ++ " Suggestion: " ++
        first.suggestion ++ "\n" := by
    have h0 : "  Issue " ++ toString 0 ++ ": " = "  Issue 0: " := by decide
    rw [h0]
    simp only [fbLine, String.append_assoc]
  refine ⟨t, ?_⟩
  unfold fbMessage fbLoop
  simp only [hne, ne_eq, not_false_eq_true, if_true, Nat.zero_add]
  rw [heq, ht, hlit]

/-- C26: for a non-empty list of records whose first record is not a success, the message
of plan_fb and of query_fb_nonblock starts with the header followed by the line
"  Issue 0: reason Suggestion: suggestion" of the first record, whatever its reason and
suggestion are. -/
theorem fb_first_record_reported (first : ActionResult) (rest : List ActionResult)
    (hfail : first.success = false) :
    ∃ t : String,
      plan_fb (first :: rest) = some ("No solution found:\n" ++ "  Issue 0: " ++
        first.reason ++ " Suggestion: " ++ first.suggestion ++ "\n" ++ t) ∧
      query_fb_nonblock false (first :: rest) = some ("No solution found:\n" ++
        "  Issue 0: " ++ first.reason ++ " Suggestion: " ++ first.suggestion ++ "\n" ++ t) := by
  obtain ⟨t, ht⟩ := fbMessage_cons_eq first rest
  refine ⟨t, ?_, ?_⟩
  · simp only [plan_fb, hfail, Bool.false_eq_true, if_false]
    rw [ht]
  · simp only [query_fb_nonblock, hfail, Bool.false_eq_true, if_false]
    rw [fbMessageNonblock_eq, ht]

/-- Witness for C26: a first record whose reason and suggestion are both empty. -/
theorem fb_first_record_reported_witness :
    ∃ t : String,
      plan_fb (silentFailure :: repeatedRecords) = some ("No solution found:\n" ++
        "  Issue 0: " ++ silentFailure.reason ++ " Suggestion: " ++
        silentFailure.suggestion ++ "\n" ++ t) ∧
      query_fb_nonblock false (silentFailure :: repeatedRecords) =
        some ("No solution found:\n" ++ "  Issue 0: " ++ silentFailure.reason ++
          " Suggestion: " ++ silentFailure.suggestion ++ "\n" ++ t) :=
  fb_first_record_reported silentFailure repeatedRecords (by decide)

/-- The message for the record without reason and suggestion alone. -/
theorem plan_fb_silentFailure :
    plan_fb [silentFailure] = some "No solution found:\n  Issue 0:  Suggestion: \n" := by
  decide

/-! ## The result record: field vector and cleared record -/

/-- C28: toStringVec() loses nothing: two records with the same field vector are equal
in all five fields, and a record is rebuilt from entries 0 to 4 of its field vector. -/
theorem toStringVec_injective (r1 r2 : ActionResult)
    (h : r1.toStringVec = r2.toStringVec) :
    r1.error = r2.error ∧ r1.actionCommand = r2.actionCommand ∧ r1.reason = r2.reason ∧
    r1.suggestion = r2.suggestion ∧ r1.developer = r2.developer ∧ r1 = r2 ∧
    ActionResult.mk (r1.toStringVec.getD 0 "") (r1.toStringVec.getD 1 "")
      (r1.toStringVec.getD 2 "") (r1.toStringVec.getD 3 "") (r1.toStringVec.getD 4 "") = r1 := by
  have h1 : r1.toStringVec =
      [r1.error, r1.actionCommand, r1.reason, r1.suggestion, r1.developer] := rfl
  have h2 : r2.toStringVec =
      [r2.error, r2.actionCommand, r2.reason, r2.suggestion, r2.developer] := rfl
  rw [h1, h2] at h
  simp only [List.cons.injEq, and_true] at h
  obtain ⟨he, hc, hr, hs, hd⟩ := h
  refine ⟨he, hc, hr, hs, hd, ?_, rfl⟩
  cases r1
  cases r2
  simp only at he hc hr hs hd
  simp [he, hc, hr, hs, hd]

/-- Witness for C28: the example record against a copy built field by field. -/
theorem toStringVec_injective_witness :
    fullRecord.error = "ERROR" ∧ fullRecord.actionCommand = "get cup" ∧
    fullRecord.reason = "cup is occluded" ∧ fullRecord.suggestion = "remove the box" ∧
    fullRecord.developer = "collision at step 3" ∧
    fullRecord = ⟨"ERROR", "get cup", "cup is occluded", "remove the box",
      "collision at step 3"⟩ ∧
    ActionResult.mk (fullRecord.toStringVec.getD 0 "") (fullRecord.toStringVec.getD 1 "")
      (fullRecord.toStringVec.getD 2 "") (fullRecord.toStringVec.getD 3 "")
      (fullRecord.toStringVec.getD 4 "") = fullRecord :=
  toStringVec_injective fullRecord
    ⟨"ERROR", "get cup", "cup is occluded", "remove the box", "collision at step 3"⟩
    (by decide)

/-- C29: a cleared record is never a success: after clear() success() is false and
toString() is the failure rendering (with the command that clear() leaves in place and
four empty fields); clearing twice gives the same record as clearing once. -/
theorem clear_not_success (r : ActionResult) :
    r.clear.success = false ∧
    r.clear.toString = "ACTION: '" ++ r.actionCommand ++
      "' ERROR: '' REASON: '' SUGGESTION: '' DEVELOPER: ''" ∧
    r.clear.clear = r.clear := by
  have hs : r.clear.success = false := by
    cases hsucc : r.clear.success with
    | false => rfl
    | true =>
      have hp := (success_iff_isPrefix r.clear).mp hsucc
      have hle := List.IsPrefix.length_le hp
      have h7 : "SUCCESS".data.length = 7 := by decide
      have h0 : r.clear.error.data.length = 0 := rfl
      omega
  refine ⟨hs, ?_, rfl⟩
  simp only [ActionResult.toString, hs, Bool.false_eq_true, if_false]
  have h1 : r.clear.actionCommand = r.actionCommand := rfl
  have h2 : r.clear.error = "" := rfl
  have h3 : r.clear.reason = "" := rfl
  have h4 : r.clear.suggestion = "" := rfl
  have h5 : r.clear.developer = "" := rfl
  rw [h1, h2, h3, h4, h5]
  apply String.ext
  simp [String.data_append]

/-- The successful example record after clear(). -/
theorem clear_slowSuccess :
    slowSuccess.success = true ∧ slowSuccess.clear.success = false ∧
    slowSuccess.clear.toString =
      "ACTION: 'get cup' ERROR: '' REASON: '' SUGGESTION: '' DEVELOPER: ''" := by
  decide

end aff
